import Mathlib

/-!
# OTB stereo reconstruction chain: verification development

Shallow embedding of the stereo-to-elevation chain that
`Examples/DisparityMap/StereoReconstructionExample.cxx` assembles.

The example file holds the pipeline wiring, the mask expressions and every
parameter value; the filters it instantiates (block matching, sub-pixel
refinement, median filtering, DEM projection) are not part of the sources at
hand, so their per-pixel rules are modelled from the specification text and
marked as such.  Pixel values and metric values are exact rationals; the elevation
bounds of the example, which `main` computes in `double`, and the numeric check of
the parabolic fit use a model of `double` over the rationals.
-/

namespace OTB

/-! ## Validity masks (`StereoReconstructionExample.cxx`, lines 212-280) -/

namespace StereoReconstructionExample

/-- Pixel value `defaultValue` of the example (`FloatImageType::PixelType defaultValue = 0`). -/
def defaultValue : ℚ := 0

/-- Setup of one `StreamingWarpImageFilter` as far as the example configures it: radius of
the interpolator handed to `SetInterpolator`, output size, spacing and origin, and the edge
padding value. -/
structure WarpFilterSetup where
  interpolatorRadius : Nat
  outputSize : Nat × Nat
  outputSpacing : ℚ × ℚ
  outputOrigin : ℚ × ℚ
  edgePaddingValue : ℚ
deriving DecidableEq, Repr

/-- The left warp filter for the rectified size `epipolarSize`: `SetRadius(2)` on the
interpolator, spacing (1,1), origin (0,0), `SetEdgePaddingValue(defaultValue)`. -/
def m_LeftWarpImageFilter (epipolarSize : Nat × Nat) : WarpFilterSetup :=
  { interpolatorRadius := 2, outputSize := epipolarSize, outputSpacing := (1, 1),
    outputOrigin := (0, 0), edgePaddingValue := defaultValue }

/-- The right warp filter for the rectified size `epipolarSize`: `SetRadius(2)` on the
interpolator, spacing (1,1), origin (0,0), `SetEdgePaddingValue(defaultValue)`. -/
def m_RightWarpImageFilter (epipolarSize : Nat × Nat) : WarpFilterSetup :=
  { interpolatorRadius := 2, outputSize := epipolarSize, outputSpacing := (1, 1),
    outputOrigin := (0, 0), edgePaddingValue := defaultValue }

/-- Band-math expression of the left mask: `inleft != 0 ? 255 : 0`
(written `if(inleft != 0,255,0)` for the older parser). -/
def leftExpr (inleft : ℚ) : ℚ := if inleft ≠ 0 then 255 else 0

/-- Band-math expression of the right mask: `inright != 0 ? 255 : 0`
(written `if(inright != 0,255,0)` for the older parser). -/
def rightExpr (inright : ℚ) : ℚ := if inright ≠ 0 then 255 else 0

end StereoReconstructionExample

/-! ## DEM projector: grid and max-wins merge -/

namespace DEMProjector

/-- Modelled from the spec: the cell of a DEMGrid (the `DisparityMapToDEMFilter` sources are
missing).  Each cell stores a scalar elevation and an "ever written" flag. -/
structure Cell where
  written : Bool
  elevation : ℚ
deriving DecidableEq, Repr

/-- Modelled from the spec: the distinguished no-data state of a cell that was never written
(the `DisparityMapToDEMFilter` sources are missing). -/
def noData : Cell := { written := false, elevation := 0 }

/-- Modelled from the spec: the DEMGrid, a planar raster over a fixed footprint of
`cols` x `rows` cells, stored row by row (the `DisparityMapToDEMFilter` sources are missing). -/
structure DEMGrid where
  cols : Nat
  rows : Nat
  cells : List Cell
deriving DecidableEq, Repr

/-- Modelled from the spec: a grid on which no cell was written yet (the
`DisparityMapToDEMFilter` sources are missing). -/
def emptyGrid (cols rows : Nat) : DEMGrid :=
  { cols := cols, rows := rows, cells := List.replicate (cols * rows) noData }

/-- Modelled from the spec: read access to the cell in column `i`, row `j`; `none` outside the
footprint (the `DisparityMapToDEMFilter` sources are missing). -/
def cellAt (g : DEMGrid) (i j : Nat) : Option Cell :=
  if i < g.cols ∧ j < g.rows then g.cells[j * g.cols + i]? else none

/-- Modelled from the spec: the update rule of a cell, "write iff `!cell.written OR
candidate.elevation > cell.elevation`" (the `DisparityMapToDEMFilter` sources are missing). -/
def mergeCell (c : Cell) (e : ℚ) : Cell :=
  if !c.written || decide (e > c.elevation) then { written := true, elevation := e } else c

/-- Modelled from the spec: the cell update of the DEM Projector for a point that lands in
column `i`, row `j` with elevation `e`; a point outside the DEM bounds is skipped (the
`DisparityMapToDEMFilter` sources are missing). -/
def updateCell (g : DEMGrid) (i j : Nat) (e : ℚ) : DEMGrid :=
  if i < g.cols ∧ j < g.rows then
    match g.cells[j * g.cols + i]? with
    | some c => { g with cells := g.cells.set (j * g.cols + i) (mergeCell c e) }
    | none => g
  else g

/-- Modelled from the spec: a projected point, the DEM cell that contains it and its
elevation (the `DisparityMapToDEMFilter` sources are missing). -/
structure ProjectedPoint where
  col : Nat
  row : Nat
  elevation : ℚ
deriving DecidableEq, Repr

/-- Modelled from the spec: accumulation of a list of projected points by the max-wins
update, in list order (the `DisparityMapToDEMFilter` sources are missing). -/
def accumulate (g : DEMGrid) (pts : List ProjectedPoint) : DEMGrid :=
  pts.foldl (fun acc p => updateCell acc p.col p.row p.elevation) g

/-- Modelled from the spec: elevation bounds of the projector and the treatment of an
out-of-range elevation, discarded by default and clamped in the optional mode (the
`DisparityMapToDEMFilter` sources are missing). -/
structure ElevationRange where
  elevationMin : ℚ
  elevationMax : ℚ
  clampMode : Bool
deriving DecidableEq, Repr

/-- Modelled from the spec: the elevation that is offered to a cell, always inside
`[elevationMin, elevationMax]`; `none` when the point is discarded (the
`DisparityMapToDEMFilter` sources are missing). -/
def offeredElevation (cfg : ElevationRange) (e : ℚ) : Option ℚ :=
  if cfg.elevationMin ≤ e ∧ e ≤ cfg.elevationMax then some e
  else if cfg.clampMode then some (max cfg.elevationMin (min e cfg.elevationMax))
  else none

/-- Modelled from the spec: one DEM Projector update, range treatment followed by the cell
update (the `DisparityMapToDEMFilter` sources are missing). -/
def projectPoint (cfg : ElevationRange) (g : DEMGrid) (p : ProjectedPoint) : DEMGrid :=
  match offeredElevation cfg p.elevation with
  | some e => updateCell g p.col p.row e
  | none => g

/-- Modelled from the spec: a sequence of DEM Projector updates (the
`DisparityMapToDEMFilter` sources are missing). -/
def projectAll (cfg : ElevationRange) (g : DEMGrid) (pts : List ProjectedPoint) : DEMGrid :=
  pts.foldl (projectPoint cfg) g

/-- Modelled from the spec: every written cell of the grid holds an elevation inside the
configured interval (the `DisparityMapToDEMFilter` sources are missing). -/
def WrittenInRange (cfg : ElevationRange) (g : DEMGrid) : Prop :=
  ∀ i j c, cellAt g i j = some c → c.written = true →
    cfg.elevationMin ≤ c.elevation ∧ c.elevation ≤ cfg.elevationMax

/-- Modelled from the spec: every cell written in `g` is still written in `g2` and its
elevation did not decrease (the `DisparityMapToDEMFilter` sources are missing). -/
def NeverLowers (g g2 : DEMGrid) : Prop :=
  ∀ i j c, cellAt g i j = some c → c.written = true →
    ∃ c2, cellAt g2 i j = some c2 ∧ c2.written = true ∧ c.elevation ≤ c2.elevation

end DEMProjector

/-! ## Block matcher -/

namespace BlockMatcher

/-- Modelled from the spec: a dense raster (epipolar image or validity mask), its extent and
its samples by column `x` and row `y` (the image classes of the filters are missing). -/
structure Raster (α : Type) where
  width : Nat
  height : Nat
  pix : Int → Int → α

/-- Modelled from the spec: the integers from `lo` to `hi`, in increasing order (iteration
over disparity bounds and window offsets; the `PixelWiseBlockMatchingImageFilter` sources
are missing). -/
def intRange (lo hi : Int) : List Int :=
  (List.range (hi + 1 - lo).toNat).map (fun (k : Nat) => lo + (k : Int))

/-- Modelled from the spec: offsets `(dx, dy)` of the similarity window of side `2r+1` (the
`PixelWiseBlockMatchingImageFilter` sources are missing). -/
def windowOffsets (r : Nat) : List (Int × Int) :=
  (intRange (-(r : Int)) r).flatMap (fun dy => (intRange (-(r : Int)) r).map (fun dx => (dx, dy)))

/-- Modelled from the spec: the samples of the `r`-radius window centered at `(x, y)` (the
`PixelWiseBlockMatchingImageFilter` sources are missing). -/
def window (img : Raster ℚ) (r : Nat) (x y : Int) : List ℚ :=
  (windowOffsets r).map (fun o => img.pix (x + o.1) (y + o.2))

/-- Modelled from the spec: the `r`-radius window centered at `(x, y)` lies inside the
raster; a pixel within `r` pixels of a border has no such window (the
`PixelWiseBlockMatchingImageFilter` sources are missing). -/
def windowInside {α : Type} (img : Raster α) (r : Nat) (x y : Int) : Bool :=
  decide ((r : Int) ≤ x) && decide (x + r < img.width) &&
    decide ((r : Int) ≤ y) && decide (y + r < img.height)

/-- Modelled from the spec: configuration of the Block Matcher, window radius, disparity
bounds, similarity metric on two windows and the minimize/maximize flag (the
`PixelWiseBlockMatchingImageFilter` sources are missing). -/
structure Config where
  radius : Nat
  hMin : Int
  hMax : Int
  vMin : Int
  vMax : Int
  metric : List ℚ → List ℚ → ℚ
  minimize : Bool

/-- Modelled from the spec: sum of squared differences of two windows, one of the metrics of
the Block Matcher, to be minimized (the `SSDBlockMatching` functor sources are missing). -/
def ssd (a b : List ℚ) : ℚ :=
  (List.zipWith (fun u v => (u - v) ^ 2) a b).sum

/-- Modelled from the spec: the enumeration of the search window, every integer candidate
`(dh, dv)` in the bounds, rows of the window from `vMin` to `vMax` and inside a row from
`hMin` to `hMax` (the `PixelWiseBlockMatchingImageFilter` sources are missing). -/
def candidates (cfg : Config) : List (Int × Int) :=
  (intRange cfg.vMin cfg.vMax).flatMap
    (fun dv => (intRange cfg.hMin cfg.hMax).map (fun dh => (dh, dv)))

/-- Modelled from the spec: a candidate `(dh, dv)` is skipped if the right mask is false at
`pixel + (dh, dv)`, and has a valid right window otherwise (the
`PixelWiseBlockMatchingImageFilter` sources are missing). -/
def candidateValid (_cfg : Config) (_right : Raster ℚ) (rightMask : Raster Bool)
    (x y : Int) (c : Int × Int) : Bool :=
  rightMask.pix (x + c.1) (y + c.2)

/-- Modelled from the spec: the metric of a candidate, computed over the window centered at
the left pixel against the window at `pixel + (dh, dv)` in the right image (the
`PixelWiseBlockMatchingImageFilter` sources are missing). -/
def score (cfg : Config) (left right : Raster ℚ) (x y : Int) (c : Int × Int) : ℚ :=
  cfg.metric (window left cfg.radius x y) (window right cfg.radius (x + c.1) (y + c.2))

/-- Modelled from the spec: `s` is strictly better than `b` for the polarity of the metric
(the `PixelWiseBlockMatchingImageFilter` sources are missing). -/
def better (minimize : Bool) (s b : ℚ) : Bool :=
  if minimize then decide (s < b) else decide (b < s)

/-- Modelled from the spec: one step of the search, the running best is replaced only by a
strictly better candidate, so that of two equal candidates the first one met is kept (the
`PixelWiseBlockMatchingImageFilter` sources are missing). -/
def keepBest (minimize : Bool) (best : Option ((Int × Int) × ℚ)) (cs : (Int × Int) × ℚ) :
    Option ((Int × Int) × ℚ) :=
  match best with
  | none => some cs
  | some b => if better minimize cs.2 b.2 then some cs else some b

/-- Modelled from the spec: the candidates of a pixel that are not skipped, in enumeration
order, each with its metric (the `PixelWiseBlockMatchingImageFilter` sources are missing). -/
def scoredCandidates (cfg : Config) (left right : Raster ℚ) (rightMask : Raster Bool)
    (x y : Int) : List ((Int × Int) × ℚ) :=
  ((candidates cfg).filter (candidateValid cfg right rightMask x y)).map
    (fun c => (c, score cfg left right x y c))

/-- Modelled from the spec: the left pixel is processed when the left mask is true there and
its window lies inside the left image (the `PixelWiseBlockMatchingImageFilter` sources are
missing). -/
def leftPixelValid (cfg : Config) (left : Raster ℚ) (leftMask : Raster Bool)
    (x y : Int) : Bool :=
  windowInside left cfg.radius x y && leftMask.pix x y

/-- Modelled from the spec: the Block Matcher at one pixel of the left image, the selected
candidate `(dh, dv)` with its metric, or `none` for an invalid output pixel (the
`PixelWiseBlockMatchingImageFilter` sources are missing). -/
def matchPixel (cfg : Config) (left right : Raster ℚ) (leftMask rightMask : Raster Bool)
    (x y : Int) : Option ((Int × Int) × ℚ) :=
  if leftPixelValid cfg left leftMask x y then
    (scoredCandidates cfg left right rightMask x y).foldl (keepBest cfg.minimize) none
  else none

/-- Modelled from the spec: a candidate attains the optimal metric value of a list of scored
candidates when none of them is strictly better (the `PixelWiseBlockMatchingImageFilter`
sources are missing). -/
def attainsOptimum (minimize : Bool) (l : List ((Int × Int) × ℚ)) (cs : (Int × Int) × ℚ) :
    Bool :=
  l.all (fun o => !better minimize o.2 cs.2)

/-- Synthetic left image of the shift scenario: 100 x 100 samples, the sample of column `x`
and row `y` being `x * x + y`. -/
def shiftLeft : Raster ℚ :=
  { width := 100, height := 100, pix := fun x y => ((x * x + y : Int) : ℚ) }

/-- Synthetic right image of the shift scenario: the left image shifted by 5 pixels
horizontally, so that the left pixel `(x, y)` is found at `(x - 5, y)`. -/
def shiftRight : Raster ℚ :=
  { width := 100, height := 100, pix := fun x y => shiftLeft.pix (x + 5) y }

/-- Mask of 100 x 100 pixels that is true everywhere. -/
def fullMask : Raster Bool :=
  { width := 100, height := 100, pix := fun _ _ => true }

/-- Synthetic image of 100 x 100 samples that all hold the value 7: every candidate of a
pixel has the same metric. -/
def flatImage : Raster ℚ :=
  { width := 100, height := 100, pix := fun _ _ => 7 }

/-- Configuration of the shift scenario: window radius 3, bounds `h` in [-10,0] and `v` in
[0,0], sum of squared differences, minimized. -/
def shiftConfig : Config :=
  { radius := 3, hMin := -10, hMax := 0, vMin := 0, vMax := 0, metric := ssd, minimize := true }

end BlockMatcher

/-! ## Median outlier filter -/

namespace MedianFilter

open BlockMatcher (Raster intRange)

/-- Modelled from the spec: a pixel is valid when it lies inside the raster and the
externally supplied mask is true there (the `DisparityMapMedianFilter` sources are
missing). -/
def pixelValid (mask : Raster Bool) (x y : Int) : Bool :=
  decide (0 ≤ x) && decide (x < mask.width) && decide (0 ≤ y) && decide (y < mask.height) &&
    mask.pix x y

/-- Modelled from the spec: the positions of the `(2r+1)` x `(2r+1)` neighbourhood of
`(x, y)` (the `DisparityMapMedianFilter` sources are missing). -/
def neighbourhood (r : Nat) (x y : Int) : List (Int × Int) :=
  List.product (intRange (x - r) (x + r)) (intRange (y - r) (y + r))

/-- Modelled from the spec: the disparities of the valid pixels of the neighbourhood (the
`DisparityMapMedianFilter` sources are missing). -/
def validNeighbours (r : Nat) (disp : Raster ℚ) (mask : Raster Bool) (x y : Int) : List ℚ :=
  ((neighbourhood r x y).filter (fun p => pixelValid mask p.1 p.2)).map
    (fun p => disp.pix p.1 p.2)

/-- Modelled from the spec: the median of a list of disparities, the element of rank
`length / 2` of the sorted list (the `DisparityMapMedianFilter` sources are missing). -/
def median (l : List ℚ) : ℚ :=
  (l.insertionSort (fun a b => a ≤ b)).getD (l.length / 2) 0

/-- Modelled from the spec: the Median Outlier Filter at one pixel, `none` for an invalid
output pixel: a valid pixel is marked invalid if `|value - median| > t` and passed through
unchanged otherwise (the `DisparityMapMedianFilter` sources are missing). -/
def filterPixel (r : Nat) (t : ℚ) (disp : Raster ℚ) (mask : Raster Bool) (x y : Int) :
    Option ℚ :=
  if pixelValid mask x y then
    if |disp.pix x y - median (validNeighbours r disp mask x y)| > t then none
    else some (disp.pix x y)
  else none

/-- Disparity field of 5 x 5 pixels that holds `x / 2` at pixel `(x, y)` except the value
40 at pixel (2,2). -/
def spikeField : Raster ℚ :=
  { width := 5, height := 5, pix := fun x y => if x = 2 ∧ y = 2 then 40 else (x : ℚ) / 2 }

end MedianFilter

/-! ## Sub-pixel refiner -/

namespace SubPixelRefiner

open BlockMatcher (better)

/-- Modelled from the spec: the refinement methods of the Sub-pixel Refiner, parabolic
vertex fit, triangular apex fit and iterative dichotomy (the `SubPixelDisparityImageFilter`
sources are missing). -/
inductive RefineMethod where
  | parabolic
  | triangular
  | dichotomy
deriving DecidableEq, Repr

/-- Modelled from the spec: configuration of the refinement of one axis, the method, the
polarity of the metric, the bounds `[lo, hi]` of the search window along the axis and, for
the dichotomy, the iteration count and the minimum step (the `SubPixelDisparityImageFilter`
sources are missing). -/
structure Config where
  method : RefineMethod
  minimize : Bool
  lo : Int
  hi : Int
  maxIterations : Nat
  minStep : ℚ

/-- Modelled from the spec: the winning candidate lies on an edge of the search window, so
that one of its two neighbours is missing (the `SubPixelDisparityImageFilter` sources are
missing). -/
def onWindowEdge (cfg : Config) (d : Int) : Bool :=
  decide (d = cfg.lo) || decide (d = cfg.hi)

/-- Modelled from the spec: by how much the center sample `y0` of the stencil is better
than the sample `y`, for the polarity of the metric (the `SubPixelDisparityImageFilter`
sources are missing). -/
def gain (minimize : Bool) (y0 y : ℚ) : ℚ :=
  if minimize then y - y0 else y0 - y

/-- Modelled from the spec: parabolic vertex fit, the abscissa of the vertex of the parabola
through the samples `ym`, `y0`, `yp` taken at -1, 0 and 1; `none` when the denominator is
zero (the `SubPixelDisparityImageFilter` sources are missing). -/
def parabolicOffset (ym y0 yp : ℚ) : Option ℚ :=
  if ym - 2 * y0 + yp = 0 then none
  else some ((ym - yp) / (2 * (ym - 2 * y0 + yp)))

/-- Modelled from the spec: triangular apex fit, the abscissa of the apex of the two lines
of opposite slopes through the samples, the slope being given by the steeper side; `none`
when the denominator is zero (the `SubPixelDisparityImageFilter` sources are missing). -/
def triangularOffset (minimize : Bool) (ym y0 yp : ℚ) : Option ℚ :=
  if max (gain minimize y0 ym) (gain minimize y0 yp) = 0 then none
  else some ((gain minimize y0 ym - gain minimize y0 yp) /
    (2 * max (gain minimize y0 ym) (gain minimize y0 yp)))

/-- Modelled from the spec: one dichotomy step around the current best `x` with half
interval `s`, the metric is evaluated again at the two midpoints `x - s` and `x + s` and the
best of the three positions is kept, the current one on ties (the
`SubPixelDisparityImageFilter` sources are missing). -/
def dichotomyStep (minimize : Bool) (profile : ℚ → ℚ) (x s : ℚ) : ℚ :=
  if better minimize (profile (x - s)) (profile x) &&
      !better minimize (profile (x + s)) (profile (x - s)) then x - s
  else if better minimize (profile (x + s)) (profile x) then x + s
  else x

/-- Modelled from the spec: iterative dichotomy, the interval is halved after every step,
up to a fixed iteration count or until the step is below the minimum step (the
`SubPixelDisparityImageFilter` sources are missing). -/
def dichotomy (minimize : Bool) (profile : ℚ → ℚ) (minStep : ℚ) : Nat → ℚ → ℚ → ℚ
  | 0, x, _ => x
  | n + 1, x, s =>
    if s < minStep then x
    else dichotomy minimize profile minStep n (dichotomyStep minimize profile x s) (s / 2)

/-- Modelled from the spec: refinement of the integer disparity `d` along one axis.
`sample k` is the metric value of the integer candidate `k` of the axis in the local metric
profile that the Block Matcher emits (`none` when the candidate lies outside the bounds or
was skipped), `resample` the metric evaluated again at a fractional position by the
dichotomy.  A degenerate stencil (winning candidate on a search-window edge, a sample of
the stencil missing, undefined fit) gives the unmodified integer disparity (the
`SubPixelDisparityImageFilter` sources are missing). -/
def refineAxis (cfg : Config) (sample : Int → Option ℚ) (resample : ℚ → ℚ) (d : Int) : ℚ :=
  if onWindowEdge cfg d then (d : ℚ)
  else
    match sample (d - 1), sample d, sample (d + 1) with
    | some ym, some y0, some yp =>
      match cfg.method with
      | RefineMethod.parabolic =>
        match parabolicOffset ym y0 yp with
        | some o => d + o
        | none => d
      | RefineMethod.triangular =>
        match triangularOffset cfg.minimize ym y0 yp with
        | some o => d + o
        | none => d
      | RefineMethod.dichotomy =>
        dichotomy cfg.minimize resample cfg.minStep cfg.maxIterations d (1 / 2)
    | _, _, _ => (d : ℚ)

/-- Modelled from the spec: the metric value of the candidate `c` in the local metric
profile that the Block Matcher emits for a pixel, the list of its candidates that were not
skipped with their metric (the `PixelWiseBlockMatchingImageFilter` sources are missing). -/
def emittedMetric (profile : List ((Int × Int) × ℚ)) (c : Int × Int) : Option ℚ :=
  (profile.find? (fun e => e.1 == c)).map Prod.snd

/-- Modelled from the spec: the horizontal and the vertical axis are refined independently,
each from the samples of the local metric profile along that axis through the integer
disparity `d` (the `SubPixelDisparityImageFilter` sources are missing). -/
def refine (cfgH cfgV : Config) (profile : List ((Int × Int) × ℚ))
    (resampleH resampleV : ℚ → ℚ) (d : Int × Int) : ℚ × ℚ :=
  (refineAxis cfgH (fun k => emittedMetric profile (k, d.2)) resampleH d.1,
    refineAxis cfgV (fun k => emittedMetric profile (d.1, k)) resampleV d.2)

/-- Setup of one axis of the refiner after `SetInputsFromBlockMatchingFilter` (line 327 of
the example): the polarity and the disparity bounds of the axis are those of the Block
Matcher. -/
def axisConfig (m : BlockMatcher.Config) (method : RefineMethod) (maxIterations : Nat)
    (minStep : ℚ) (horizontal : Bool) : Config :=
  { method := method, minimize := m.minimize,
    lo := if horizontal then m.hMin else m.vMin,
    hi := if horizontal then m.hMax else m.vMax,
    maxIterations := maxIterations, minStep := minStep }

/-- Modelled from the spec: the Sub-pixel Refiner at one pixel, `none` where the Block
Matcher gives no valid integer disparity, the refined disparity otherwise (the
`SubPixelDisparityImageFilter` sources are missing). -/
def refinePixel (m : BlockMatcher.Config) (method : RefineMethod) (maxIterations : Nat)
    (minStep : ℚ) (left right : BlockMatcher.Raster ℚ)
    (leftMask rightMask : BlockMatcher.Raster Bool) (resampleH resampleV : ℚ → ℚ)
    (x y : Int) : Option (ℚ × ℚ) :=
  (BlockMatcher.matchPixel m left right leftMask rightMask x y).map
    (fun w =>
      refine (axisConfig m method maxIterations minStep true)
        (axisConfig m method maxIterations minStep false)
        (BlockMatcher.scoredCandidates m left right rightMask x y) resampleH resampleV w.1)

end SubPixelRefiner

/-! ## Warp image filter (`otbWarpImageFilter.h`) -/

namespace WarpImageFilter

/-- Interpolation functions that can be handed to `SetInterpolator`: the linear one of the
header and the bicubic one (`BCOInterpolateImageFunction`, with its radius) of the example. -/
inductive InterpolatorType where
  | LinearInterpolateImageFunction
  | BCOInterpolateImageFunction (radius : Nat)
deriving DecidableEq, Repr

/-- Typedef `DefaultInterpolatorType` of the header:
`itk::LinearInterpolateImageFunction<InputImageType,CoordRepType>`. -/
def DefaultInterpolatorType : InterpolatorType :=
  InterpolatorType.LinearInterpolateImageFunction

/-- Members of `WarpImageFilter` that the setters of the header write. -/
structure Filter where
  m_EdgePaddingValue : ℚ
  m_OutputSpacing : ℚ × ℚ
  m_OutputOrigin : ℚ × ℚ
  m_Interpolator : InterpolatorType
  m_OutputSize : Nat × Nat
  m_OutputStartIndex : Int × Int
deriving DecidableEq, Repr

/-- Modelled from the spec: the filter as its constructor leaves it (otbWarpImageFilter.txx
is missing), with the defaults of the class documentation, a spacing of 1's, an origin of
0's, a start index of zeros and the `DefaultInterpolatorType`, and with the edge padding
value 0 that the spec gives as default. -/
def New : Filter :=
  { m_EdgePaddingValue := 0, m_OutputSpacing := (1, 1), m_OutputOrigin := (0, 0),
    m_Interpolator := DefaultInterpolatorType, m_OutputSize := (0, 0),
    m_OutputStartIndex := (0, 0) }

/-- Setter `itkSetObjectMacro( Interpolator, InterpolatorType )`. -/
def SetInterpolator (f : Filter) (i : InterpolatorType) : Filter :=
  { f with m_Interpolator := i }

/-- Setter `itkSetMacro( OutputSize, SizeType )`. -/
def SetOutputSize (f : Filter) (size : Nat × Nat) : Filter :=
  { f with m_OutputSize := size }

/-- Setter `itkSetMacro(OutputSpacing, SpacingType)`. -/
def SetOutputSpacing (f : Filter) (spacing : ℚ × ℚ) : Filter :=
  { f with m_OutputSpacing := spacing }

/-- Setter `itkSetMacro(OutputOrigin, PointType)`. -/
def SetOutputOrigin (f : Filter) (origin : ℚ × ℚ) : Filter :=
  { f with m_OutputOrigin := origin }

/-- Setter `itkSetMacro( EdgePaddingValue, PixelType )`. -/
def SetEdgePaddingValue (f : Filter) (v : ℚ) : Filter :=
  { f with m_EdgePaddingValue := v }

/-- Getter `itkGetConstMacro( EdgePaddingValue, PixelType )`. -/
def GetEdgePaddingValue (f : Filter) : ℚ := f.m_EdgePaddingValue

/-- Modelled from the spec: the input image as the interpolator sees it, whether a physical
point lies inside the image buffer and the value each interpolation function gives there
(the interpolator classes and otbWarpImageFilter.txx are missing). -/
structure InputImage where
  IsInsideBuffer : ℚ × ℚ → Bool
  Evaluate : InterpolatorType → ℚ × ℚ → ℚ

/-- Modelled from the spec: physical position of the output pixel of index `idx`, from the
output origin and spacing with the identity direction (otbWarpImageFilter.txx is
missing). -/
def outputPoint (f : Filter) (idx : Int × Int) : ℚ × ℚ :=
  (f.m_OutputOrigin.1 + f.m_OutputSpacing.1 * idx.1,
    f.m_OutputOrigin.2 + f.m_OutputSpacing.2 * idx.2)

/-- Modelled from the spec: the position of the input image onto which an output point is
mapped back, `p_in = p_out + d`, with `d` the displacement read from the field at the output
point (otbWarpImageFilter.txx is missing). -/
def mappedPoint (field : ℚ × ℚ → ℚ × ℚ) (pOut : ℚ × ℚ) : ℚ × ℚ :=
  (pOut.1 + (field pOut).1, pOut.2 + (field pOut).2)

/-- Modelled from the spec: the value of one output pixel, the input sampled by the
interpolator at the mapped position, or the edge padding value when that position falls
outside the input image buffer (`ThreadedGenerateData` of otbWarpImageFilter.txx is
missing). -/
def warpPixel (f : Filter) (input : InputImage) (field : ℚ × ℚ → ℚ × ℚ) (idx : Int × Int) : ℚ :=
  if input.IsInsideBuffer (mappedPoint field (outputPoint f idx)) then
    input.Evaluate f.m_Interpolator (mappedPoint field (outputPoint f idx))
  else f.m_EdgePaddingValue

/-- Input image of 4 x 4 unit pixels whose value at the point `(x, y)` is `10 x + y` for
every interpolation function. -/
def rampInput : InputImage :=
  { IsInsideBuffer := fun p => decide (0 ≤ p.1) && decide (p.1 ≤ 3) && decide (0 ≤ p.2) &&
      decide (p.2 ≤ 3),
    Evaluate := fun _ p => 10 * p.1 + p.2 }

end WarpImageFilter

/-! ## Values of type `double` -/

namespace Double

/-- A value of type `double` (IEEE 754 binary64): a finite number, held as the rational it
stands for, an infinity with its sign, or a NaN.  The sign of a zero is not kept. -/
inductive Value where
  | finite (q : ℚ)
  | infinity (negative : Bool)
  | nan
deriving DecidableEq, Repr

instance (n : Nat) : OfNat Value n := ⟨Value.finite n⟩

/-- Distance between two neighbouring `double` values around `q`: `2 ^ (e - 52)` for
`2 ^ e <= |q| < 2 ^ (e + 1)`, and `2 ^ (-1074)` below the normal range (for `q = 0` the
value plays no part, the nearest multiple being 0). -/
def ulp (q : ℚ) : ℚ := (2 : ℚ) ^ (max (Int.log 2 |q|) (-1022) - 52)

/-- The integer nearest to `x`, the even one of the two when `x` lies halfway. -/
def roundNearestEven (x : ℚ) : Int :=
  if x - ⌊x⌋ < 1 / 2 then ⌊x⌋
  else if 1 / 2 < x - ⌊x⌋ then ⌊x⌋ + 1
  else if ⌊x⌋ % 2 = 0 then ⌊x⌋ else ⌊x⌋ + 1

/-- The multiple of `ulp q` nearest to `q`, ties to even. -/
def nearest (q : ℚ) : ℚ := roundNearestEven (q / ulp q) * ulp q

/-- Rounding of the exact result `q` of an operation to a `double` (round to nearest, ties
to even): an infinity when the rounded magnitude reaches `2 ^ 1024`. -/
def round (q : ℚ) : Value :=
  if (2 : ℚ) ^ 1024 ≤ |nearest q| then Value.infinity (decide (q < 0))
  else Value.finite (nearest q)

/-- Unary minus. -/
def neg : Value → Value
  | Value.finite q => Value.finite (-q)
  | Value.infinity s => Value.infinity (!s)
  | Value.nan => Value.nan

/-- Operator `+` of `double`. -/
def add : Value → Value → Value
  | Value.finite a, Value.finite b => round (a + b)
  | Value.finite _, Value.infinity s => Value.infinity s
  | Value.infinity s, Value.finite _ => Value.infinity s
  | Value.infinity s, Value.infinity t => if s = t then Value.infinity s else Value.nan
  | _, _ => Value.nan

/-- Operator `-` of `double`. -/
def sub (a b : Value) : Value := add a (neg b)

end Double

/-! ## Sub-pixel refiner in `double` arithmetic -/

namespace SubPixelRefiner

end SubPixelRefiner

/-! ## The example program: warp setup, wiring, parameters and `main` -/

namespace StereoReconstructionExample

/-- State of a warp filter of the example after its setter calls, in the order of the
source: `SetInterpolator` (a `BCOInterpolationType` with `SetRadius`), `SetOutputSize`,
`SetOutputSpacing`, `SetOutputOrigin`, `SetEdgePaddingValue`, on a new filter. -/
def configuredWarpFilter (s : WarpFilterSetup) : WarpImageFilter.Filter :=
  WarpImageFilter.SetEdgePaddingValue
    (WarpImageFilter.SetOutputOrigin
      (WarpImageFilter.SetOutputSpacing
        (WarpImageFilter.SetOutputSize
          (WarpImageFilter.SetInterpolator WarpImageFilter.New
            (WarpImageFilter.InterpolatorType.BCOInterpolateImageFunction s.interpolatorRadius))
          s.outputSize)
        s.outputSpacing)
      s.outputOrigin)
    s.edgePaddingValue

/-- Pipeline objects that `main` creates, under their names in the source. -/
inductive Obj where
  | leftReader
  | rightReader
  | m_DisplacementFieldSource
  | m_LeftDisplacementFieldCaster
  | m_LeftWarpImageFilter
  | m_RightDisplacementFieldCaster
  | m_RightWarpImageFilter
  | m_LBandMathFilter
  | m_RBandMathFilter
  | m_NCCBlockMatcher
  | m_NCCSubPixFilter
  | m_HMedianFilter
  | m_VMedianFilter
  | m_DispToElev
  | m_DEMWriter
  | fieldRescaler
  | fieldWriter
deriving DecidableEq, Repr

/-- What a setter call receives: an output of an object, named after its getter, or the
object itself (`SetInputsFromBlockMatchingFilter`). -/
inductive Source where
  | GetOutput
  | GetLeftDisplacementFieldOutput
  | GetRightDisplacementFieldOutput
  | GetHorizontalDisparityOutput
  | GetVerticalDisparityOutput
  | Filter
deriving DecidableEq, Repr

/-- Input setters that `main` calls. -/
inductive Setter where
  | SetLeftImage
  | SetRightImage
  | SetInput
  | SetDisplacementField
  | SetNthInput0
  | SetLeftInput
  | SetRightInput
  | SetLeftMaskInput
  | SetRightMaskInput
  | SetInputsFromBlockMatchingFilter
  | SetMaskInput
  | SetHorizontalDisparityMapInput
  | SetVerticalDisparityMapInput
  | SetLeftEpipolarGridInput
  | SetRightEpipolarGridInput
  | SetDisparityMaskInput
deriving DecidableEq, Repr

/-- One call `target->setter(source->getter())` of `main`. -/
structure Call where
  target : Obj
  setter : Setter
  source : Obj
  getter : Source
deriving DecidableEq, Repr

/-- The input-setting calls of `main`, in the order of the source (lines 179-405). -/
def calls : List Call :=
  [ ⟨Obj.m_DisplacementFieldSource, Setter.SetLeftImage, Obj.leftReader, Source.GetOutput⟩,
    ⟨Obj.m_DisplacementFieldSource, Setter.SetRightImage, Obj.rightReader, Source.GetOutput⟩,
    ⟨Obj.m_LeftDisplacementFieldCaster, Setter.SetInput, Obj.m_DisplacementFieldSource,
      Source.GetLeftDisplacementFieldOutput⟩,
    ⟨Obj.m_LeftWarpImageFilter, Setter.SetInput, Obj.leftReader, Source.GetOutput⟩,
    ⟨Obj.m_LeftWarpImageFilter, Setter.SetDisplacementField, Obj.m_LeftDisplacementFieldCaster,
      Source.GetOutput⟩,
    ⟨Obj.m_RightDisplacementFieldCaster, Setter.SetInput, Obj.m_DisplacementFieldSource,
      Source.GetRightDisplacementFieldOutput⟩,
    ⟨Obj.m_RightWarpImageFilter, Setter.SetInput, Obj.rightReader, Source.GetOutput⟩,
    ⟨Obj.m_RightWarpImageFilter, Setter.SetDisplacementField,
      Obj.m_RightDisplacementFieldCaster, Source.GetOutput⟩,
    ⟨Obj.m_LBandMathFilter, Setter.SetNthInput0, Obj.m_LeftWarpImageFilter, Source.GetOutput⟩,
    ⟨Obj.m_RBandMathFilter, Setter.SetNthInput0, Obj.m_RightWarpImageFilter, Source.GetOutput⟩,
    ⟨Obj.m_NCCBlockMatcher, Setter.SetLeftInput, Obj.m_LeftWarpImageFilter, Source.GetOutput⟩,
    ⟨Obj.m_NCCBlockMatcher, Setter.SetRightInput, Obj.m_RightWarpImageFilter, Source.GetOutput⟩,
    ⟨Obj.m_NCCBlockMatcher, Setter.SetLeftMaskInput, Obj.m_LBandMathFilter, Source.GetOutput⟩,
    ⟨Obj.m_NCCBlockMatcher, Setter.SetRightMaskInput, Obj.m_RBandMathFilter, Source.GetOutput⟩,
    ⟨Obj.m_NCCSubPixFilter, Setter.SetInputsFromBlockMatchingFilter, Obj.m_NCCBlockMatcher,
      Source.Filter⟩,
    ⟨Obj.m_HMedianFilter, Setter.SetInput, Obj.m_NCCSubPixFilter,
      Source.GetHorizontalDisparityOutput⟩,
    ⟨Obj.m_HMedianFilter, Setter.SetMaskInput, Obj.m_LBandMathFilter, Source.GetOutput⟩,
    ⟨Obj.m_VMedianFilter, Setter.SetInput, Obj.m_NCCSubPixFilter,
      Source.GetVerticalDisparityOutput⟩,
    ⟨Obj.m_VMedianFilter, Setter.SetMaskInput, Obj.m_LBandMathFilter, Source.GetOutput⟩,
    ⟨Obj.m_DispToElev, Setter.SetHorizontalDisparityMapInput, Obj.m_HMedianFilter,
      Source.GetOutput⟩,
    ⟨Obj.m_DispToElev, Setter.SetVerticalDisparityMapInput, Obj.m_VMedianFilter,
      Source.GetOutput⟩,
    ⟨Obj.m_DispToElev, Setter.SetLeftInput, Obj.leftReader, Source.GetOutput⟩,
    ⟨Obj.m_DispToElev, Setter.SetRightInput, Obj.rightReader, Source.GetOutput⟩,
    ⟨Obj.m_DispToElev, Setter.SetLeftEpipolarGridInput, Obj.m_DisplacementFieldSource,
      Source.GetLeftDisplacementFieldOutput⟩,
    ⟨Obj.m_DispToElev, Setter.SetRightEpipolarGridInput, Obj.m_DisplacementFieldSource,
      Source.GetRightDisplacementFieldOutput⟩,
    ⟨Obj.m_DispToElev, Setter.SetDisparityMaskInput, Obj.m_LBandMathFilter, Source.GetOutput⟩,
    ⟨Obj.m_DEMWriter, Setter.SetInput, Obj.m_DispToElev, Source.GetOutput⟩,
    ⟨Obj.fieldRescaler, Setter.SetInput, Obj.m_DispToElev, Source.GetOutput⟩,
    ⟨Obj.fieldWriter, Setter.SetInput, Obj.fieldRescaler, Source.GetOutput⟩ ]

/-- What an input of an object is connected to after a list of calls: the source of the
last call of that setter on that object. -/
def inputOf (cs : List Call) (target : Obj) (setter : Setter) : Option (Obj × Source) :=
  ((cs.filter (fun c => decide (c.target = target) && decide (c.setter = setter))).getLast?).map
    (fun c => (c.source, c.getter))

/-- Scalar parameters that `main` hands to the filters for the average elevation
`avgElevation` (`double avgElevation = atof(argv[5])`): grid step 4 and scale 1.0 of the displacement field source,
radius 3, disparity bounds [-24,0] x [0,0] and `MinimizeOff` of the block matcher, radius 2
and incoherence threshold 2.0 of both median filters, elevation bounds
`avgElevation-10.0` and `avgElevation+80.0` and DEM grid step 2.5 of the DEM filter. -/
structure Parameters where
  gridStep : Nat
  scale : ℚ
  radius : Nat
  minimumHorizontalDisparity : Int
  maximumHorizontalDisparity : Int
  minimumVerticalDisparity : Int
  maximumVerticalDisparity : Int
  minimize : Bool
  medianRadius : Nat
  incoherenceThreshold : ℚ
  elevationMin : Double.Value
  elevationMax : Double.Value
  demGridStep : ℚ
deriving DecidableEq, Repr

/-- The parameter values of `main` (lines 182-183, 309-314, 345-352, 388-390); the two
elevation bounds are the `double` expressions `avgElevation-10.0` and `avgElevation+80.0`,
the other values are constants that a `double` holds exactly. -/
def parameters (avgElevation : Double.Value) : Parameters :=
  { gridStep := 4, scale := 1, radius := 3,
    minimumHorizontalDisparity := -24, maximumHorizontalDisparity := 0,
    minimumVerticalDisparity := 0, maximumVerticalDisparity := 0, minimize := false,
    medianRadius := 2, incoherenceThreshold := 2,
    elevationMin := Double.sub avgElevation (Double.Value.finite 10),
    elevationMax := Double.add avgElevation (Double.Value.finite 80),
    demGridStep := 5 / 2 }

/-- Value of `EXIT_SUCCESS`. -/
def EXIT_SUCCESS : Int := 0

/-- Value of `EXIT_FAILURE`. -/
def EXIT_FAILURE : Int := 1

/-- What a run of `main` did: the value it returned, whether the usage text was written to
`std::cerr`, the parameters handed to the filters and the input-setting calls made. -/
structure Run where
  exitCode : Int
  usagePrinted : Bool
  parameters : Option Parameters
  calls : List Call
deriving DecidableEq, Repr

/-- The program `main` for `argc` arguments, `avgElevation` being the value of
`atof(argv[5])`: with `argc != 6` it prints the usage and returns `EXIT_FAILURE` at once,
otherwise it builds and runs the pipeline and returns `EXIT_SUCCESS` (exceptions thrown by
the readers and writers are outside this model). -/
def main (argc : Int) (avgElevation : Double.Value) : Run :=
  if argc ≠ 6 then
    { exitCode := EXIT_FAILURE, usagePrinted := true, parameters := none, calls := [] }
  else
    { exitCode := EXIT_SUCCESS, usagePrinted := false,
      parameters := some (parameters avgElevation), calls := calls }

end StereoReconstructionExample

/-! ## View of actors (`otbGlView.cxx`) -/

/-- View settings as far as the view hands them on: the viewport size set by `Resize`. -/
structure ViewSettings where
  viewportSize : Nat × Nat
deriving DecidableEq, Repr

/-- An actor as far as the view reads or writes it: the flag of `GetVisible` and the
settings stored by `SetSettings` (the actor classes are declared outside the sources at
hand). -/
structure GlActor where
  visible : Bool
  settings : Option ViewSettings
deriving DecidableEq, Repr

/-- Members of `GlView`: the settings, the actor map `m_Actors`, a `std::map` from keys to
actors held as a list of entries with distinct keys, and the rendering order. -/
structure GlView where
  m_Settings : ViewSettings
  m_Actors : List (String × GlActor)
  m_RenderingOrder : List String
deriving DecidableEq, Repr

/-- Outcome of a call that either returns a key or throws through `itkExceptionMacro`. -/
inductive KeyResult where
  | returned (key : String)
  | exception (message : String)
deriving DecidableEq, Repr

namespace GlView

/-- Method `SetSettings` of an actor: the actor keeps the settings of the view. -/
def SetSettings (actor : GlActor) (settings : ViewSettings) : GlActor :=
  { actor with settings := some settings }

/-- Member `count` of the actor map: 1 when the key is present, 0 otherwise. -/
def count (m : List (String × GlActor)) (key : String) : Nat :=
  if m.any (fun e => e.1 == key) then 1 else 0

/-- Assignment `m[key] = actor` on the actor map: the value of an existing entry is
replaced, a new entry is added otherwise. -/
def assign (m : List (String × GlActor)) (key : String) (actor : GlActor) :
    List (String × GlActor) :=
  if m.any (fun e => e.1 == key) then
    m.map (fun e => if e.1 == key then (key, actor) else e)
  else m ++ [(key, actor)]

/-- Member `find` of the actor map: the actor stored under the key, if any. -/
def find (m : List (String × GlActor)) (key : String) : Option GlActor :=
  (m.find? (fun e => e.1 == key)).map (fun e => e.2)

/-- The constructor `GlView::GlView()`: no actor and an empty rendering order. -/
def New (settings : ViewSettings) : GlView :=
  { m_Settings := settings, m_Actors := [], m_RenderingOrder := [] }

/-- Key generated by `AddActor` for an empty key:
`oss<<"Actor"<<m_Actors.size()+1<<std::endl`. -/
def generatedKey (v : GlView) : String :=
  "Actor" ++ toString (v.m_Actors.length + 1) ++ "\n"

/-- The key under which `AddActor` stores the actor: the given key, or the generated key
when the given key is empty. -/
def effectiveKey (v : GlView) (key : String) : String :=
  if key = "" then generatedKey v else key

/-- Method `GlView::AddActor` (the same text in both source files): the outcome of the call
and the view after it; the exception is thrown before anything is modified. -/
def AddActor (v : GlView) (actor : GlActor) (key : String) : KeyResult × GlView :=
  if count v.m_Actors (effectiveKey v key) ≠ 0 then
    (KeyResult.exception ("An actor with key " ++ effectiveKey v key ++
      " already exists, please choose another key"), v)
  else
    (KeyResult.returned (effectiveKey v key),
      { v with
        m_Actors := assign v.m_Actors (effectiveKey v key) (SetSettings actor v.m_Settings),
        m_RenderingOrder := v.m_RenderingOrder ++ [effectiveKey v key] })

/-- Method `GlView::MoveActorToEndOfRenderingOrder` on the rendering order: the key found by
`std::find` is erased and inserted at the beginning (`front`) or pushed at the back. -/
def moveToEnd (order : List String) (key : String) (front : Bool) : List String :=
  if key ∈ order then
    if front then key :: order.erase key else order.erase key ++ [key]
  else order

/-- Method `GlView::MoveActorToEndOfRenderingOrder`. -/
def MoveActorToEndOfRenderingOrder (v : GlView) (key : String) (front : Bool) : GlView :=
  { v with m_RenderingOrder := moveToEnd v.m_RenderingOrder key front }

/-- Settings of the example views: a viewport of 640 x 480. -/
def exampleSettings : ViewSettings := { viewportSize := (640, 480) }

/-- An actor that is visible and has no settings yet. -/
def exampleActor : GlActor := { visible := true, settings := none }

end GlView

/-! ## MetaImage reader and writer (`itkMetaImageIO.h`) -/

/-- The meta image held by the reader as far as the header reads it: the flag returned by
`CompressedData()`. -/
structure MetaImage where
  CompressedData : Bool
deriving DecidableEq, Repr

/-- Members of `MetaImageIO` read by the inline methods of the header: the meta image, the
compression flag of `GetUseCompression()` and the sub-sampling factor. -/
structure MetaImageIO where
  m_MetaImage : MetaImage
  GetUseCompression : Bool
  m_SubSamplingFactor : Nat
deriving DecidableEq, Repr

namespace MetaImageIO

/-- Method `SupportsDimension(unsigned long)`: `return true`. -/
def SupportsDimension (_io : MetaImageIO) (_dimension : Nat) : Bool := true

/-- Method `CanStreamRead()`: false if the meta image holds compressed data, true
otherwise. -/
def CanStreamRead (io : MetaImageIO) : Bool :=
  if io.m_MetaImage.CompressedData then false else true

/-- Method `CanStreamWrite()`: false if compression is in use, true otherwise. -/
def CanStreamWrite (io : MetaImageIO) : Bool :=
  if io.GetUseCompression then false else true

end MetaImageIO

/-! ## Actors and rendering order of `GlView`, continued (`otbGlView.cxx`) -/

namespace GlView

/-- Member `erase(key)` of the actor map: the entry stored under the key is removed. -/
def erase (m : List (String × GlActor)) (key : String) : List (String × GlActor) :=
  m.filter (fun e => !(e.1 == key))

/-- Method `GlView::RemoveActor`: false and no change when the map does not count the key;
otherwise the entry is erased from the map, the position found by `std::find` is erased
from the rendering order, and true is returned. -/
def RemoveActor (v : GlView) (key : String) : Bool × GlView :=
  if count v.m_Actors key = 0 then (false, v)
  else
    (true,
      { v with
        m_Actors := erase v.m_Actors key,
        m_RenderingOrder := v.m_RenderingOrder.erase key })

/-- Method `GlView::ClearActors`: the map and the rendering order are cleared. -/
def ClearActors (v : GlView) : GlView :=
  { v with m_Actors := [], m_RenderingOrder := [] }

/-- Method `GlView::ContainsActor`: `m_Actors.find( key )!=m_Actors.end()`. -/
def ContainsActor (v : GlView) (key : String) : Bool :=
  (find v.m_Actors key).isSome

/-- Method `GlView::LightRender` as the sequence of `Render()` calls it makes: the rendering
order is walked from `rbegin()` to `rend()`, and the actor found under each key is rendered
when it is visible. -/
def LightRender (v : GlView) : List String :=
  v.m_RenderingOrder.reverse.filter (fun key =>
    match find v.m_Actors key with
    | some actor => actor.visible
    | none => false)

/-- Method `GlView::RotateRenderingOrder`: for more than one key, `std::rotate` by one
position over the reverse iterators (`down`) or over the forward iterators. -/
def RotateRenderingOrder (v : GlView) (down : Bool) : GlView :=
  if v.m_RenderingOrder.length > 1 then
    if down then
      { v with m_RenderingOrder := (v.m_RenderingOrder.reverse.rotate 1).reverse }
    else
      { v with m_RenderingOrder := v.m_RenderingOrder.rotate 1 }
  else v

/-- The call `std::swap(*it,*(it+1))` for the iterator at position `n` of the list. -/
def swapWithNext : List String → Nat → List String
  | x :: y :: rest, 0 => y :: x :: rest
  | x :: rest, n + 1 => x :: swapWithNext rest n
  | order, _ => order

/-- Method `GlView::MoveActorInRenderingOrder`: the key found by `std::find` is swapped with
its successor (`down`, when it has one) or with its predecessor (not `down`, when it has
one). -/
def MoveActorInRenderingOrder (v : GlView) (key : String) (down : Bool) : GlView :=
  if v.m_RenderingOrder.indexOf key ≠ v.m_RenderingOrder.length then
    if down = true ∧ v.m_RenderingOrder.indexOf key + 1 ≠ v.m_RenderingOrder.length then
      { v with m_RenderingOrder :=
          swapWithNext v.m_RenderingOrder (v.m_RenderingOrder.indexOf key) }
    else if down = false ∧ v.m_RenderingOrder.indexOf key ≠ 0 then
      { v with m_RenderingOrder :=
          swapWithNext v.m_RenderingOrder (v.m_RenderingOrder.indexOf key - 1) }
    else v
  else v

/-- One turn of the loop of `SetRenderingOrder` on the pair (new rendering order,
`thisKeys`): a key of an actor is pushed at the back of the new order and its position
found in `thisKeys`, if any, is erased. -/
def setRenderingOrderStep (v : GlView) (st : List String × List String) (key : String) :
    List String × List String :=
  if ContainsActor v key then (st.1 ++ [key], st.2.erase key) else st

/-- Method `GlView::SetRenderingOrder`: `thisKeys` starts as a copy of the rendering order,
the loop runs over `keys`, and what is left of `thisKeys` is inserted at the end of the new
order (`front`) or at its beginning. -/
def SetRenderingOrder (v : GlView) (keys : List String) (front : Bool) : GlView :=
  { v with m_RenderingOrder :=
      if front then
        (keys.foldl (setRenderingOrderStep v) ([], v.m_RenderingOrder)).1 ++
          (keys.foldl (setRenderingOrderStep v) ([], v.m_RenderingOrder)).2
      else
        (keys.foldl (setRenderingOrderStep v) ([], v.m_RenderingOrder)).2 ++
          (keys.foldl (setRenderingOrderStep v) ([], v.m_RenderingOrder)).1 }

/-- The keys of the actor map. -/
def keys (v : GlView) : List String := v.m_Actors.map Prod.fst

/-- The rendering order has no duplicate key and holds exactly the keys of the actor map. -/
def OrderMatchesActors (v : GlView) : Prop :=
  v.m_RenderingOrder.Nodup ∧ (∀ k ∈ v.m_RenderingOrder, k ∈ keys v) ∧
    (∀ k ∈ keys v, k ∈ v.m_RenderingOrder)

instance (v : GlView) : Decidable (OrderMatchesActors v) := by
  unfold OrderMatchesActors
  exact inferInstance

/-- A view with the two actors `a` and `b`, added in this order. -/
def twoActors : GlView :=
  (AddActor (AddActor (New exampleSettings) exampleActor "a").2 exampleActor "b").2

/-- A view with the three actors `a`, `b` and `c`, added in this order. -/
def threeActors : GlView := (AddActor twoActors exampleActor "c").2

/-- A view with the single visible actor `a`. -/
def oneActor : GlView := (AddActor (New exampleSettings) exampleActor "a").2

end GlView

/-! ## Copy of the pixel buffer in `GlView::SaveScreenshot` (`otbGlView.cxx`) -/

namespace GlView.SaveScreenshot

/-- Value of an `unsigned long` of `bits` bits holding the mathematical value `n`. -/
def wrap (bits n : Nat) : Nat := n % 2 ^ bits

/-- The local `unsigned long count = size[ 0 ] * size[ 1 ]`. -/
def count (bits w h : Nat) : Nat := wrap bits (w * h)

end GlView.SaveScreenshot

namespace GlView

end GlView

/-! ## Extent of the epipolar images (`otbWarpImageFilter.h`, example lines 179-252) -/

namespace WarpImageFilter

/-- An image region: start index and size. -/
structure Region where
  index : Int × Int
  size : Nat × Nat
deriving DecidableEq, Repr

/-- Modelled from the spec: a displacement field as far as the output information of the
warp filter reads it, its largest possible region and the offset stored at each of its
points (the image classes are missing). -/
structure DisplacementField where
  LargestPossibleRegion : Region
  offset : Int × Int → ℚ × ℚ

/-- Information of the output image of the warp filter: spacing, origin and largest
possible region. -/
structure OutputInformation where
  spacing : ℚ × ℚ
  origin : ℚ × ℚ
  LargestPossibleRegion : Region
deriving DecidableEq, Repr

/-- Modelled from the spec: method `GenerateOutputInformation` (otbWarpImageFilter.txx is
missing), which by the header sets the output information according the `OutputSpacing`,
the `OutputOrigin` and the deformation field's `LargestPossibleRegion`.  The header
documents two sources for the region, the deformation field (class documentation) and the
members written by `SetOutputStartIndex` and `SetOutputSize` ("Set the size of the output
image"); `regionFromField` tells which of the two is used. -/
def GenerateOutputInformation (regionFromField : Bool) (f : Filter)
    (field : DisplacementField) : OutputInformation :=
  { spacing := f.m_OutputSpacing, origin := f.m_OutputOrigin,
    LargestPossibleRegion :=
      if regionFromField then field.LargestPossibleRegion
      else { index := f.m_OutputStartIndex, size := f.m_OutputSize } }

/-- Modelled from the spec: physical position of the pixel of index `idx` of an image with
the given information, from its origin and spacing with the identity direction (the image
classes are missing). -/
def physicalPoint (info : OutputInformation) (idx : Int × Int) : ℚ × ℚ :=
  (info.origin.1 + info.spacing.1 * idx.1, info.origin.2 + info.spacing.2 * idx.2)

end WarpImageFilter

namespace StereoReconstructionExample

/-- Modelled from the spec: what the Epipolar Grid Builder
(`StereorectificationDisplacementFieldSource`, missing) produces (spec 2 and 4.1): for one
regular lattice over the overlap footprint, the offsets of each image at every lattice
node, and the rectified image extent. -/
structure EpipolarGrids where
  lattice : WarpImageFilter.Region
  leftOffset : Int × Int → ℚ × ℚ
  rightOffset : Int × Int → ℚ × ℚ
  rectifiedImageSize : Nat × Nat

/-- Modelled from the spec: output `GetLeftDisplacementFieldOutput()` of the grid builder,
the offsets of the left image over the lattice. -/
def GetLeftDisplacementFieldOutput (g : EpipolarGrids) : WarpImageFilter.DisplacementField :=
  { LargestPossibleRegion := g.lattice, offset := g.leftOffset }

/-- Modelled from the spec: output `GetRightDisplacementFieldOutput()` of the grid builder,
the offsets of the right image over the lattice. -/
def GetRightDisplacementFieldOutput (g : EpipolarGrids) : WarpImageFilter.DisplacementField :=
  { LargestPossibleRegion := g.lattice, offset := g.rightOffset }

/-- Modelled from the spec: `GetRectifiedImageSize()` of the grid builder. -/
def GetRectifiedImageSize (g : EpipolarGrids) : Nat × Nat := g.rectifiedImageSize

/-- Modelled from the spec: the cast of a deformation grid into a deformation field
(`DisplacementFieldCastFilterType`, missing) keeps the region and the offsets. -/
def castDisplacementField (field : WarpImageFilter.DisplacementField) :
    WarpImageFilter.DisplacementField := field

/-- Information of the left epipolar image that `main` produces (lines 219-234): the left
warp filter, set up for `epipolarSize = GetRectifiedImageSize()`, with the cast left
deformation field. -/
def leftEpipolarImage (regionFromField : Bool) (g : EpipolarGrids) :
    WarpImageFilter.OutputInformation :=
  WarpImageFilter.GenerateOutputInformation regionFromField
    (configuredWarpFilter (m_LeftWarpImageFilter (GetRectifiedImageSize g)))
    (castDisplacementField (GetLeftDisplacementFieldOutput g))

/-- Information of the right epipolar image that `main` produces (lines 236-251): the right
warp filter with the cast right deformation field. -/
def rightEpipolarImage (regionFromField : Bool) (g : EpipolarGrids) :
    WarpImageFilter.OutputInformation :=
  WarpImageFilter.GenerateOutputInformation regionFromField
    (configuredWarpFilter (m_RightWarpImageFilter (GetRectifiedImageSize g)))
    (castDisplacementField (GetRightDisplacementFieldOutput g))

end StereoReconstructionExample

/-! ## Theorems -/

namespace Double

end Double


namespace StereoReconstructionExample

/-- C4: the left and the right mask expressions give 255 (valid) exactly for a resampled
value that differs from the edge padding value handed to the corresponding warp filter, and
0 (invalid) exactly for a value equal to it; that padding value is the constant 0. -/
theorem mask_valid_iff_value_differs_from_padding (epipolarSize : Nat × Nat) (v : ℚ) :
    (leftExpr v = 255 ↔ v ≠ (m_LeftWarpImageFilter epipolarSize).edgePaddingValue) ∧
    (leftExpr v = 0 ↔ v = (m_LeftWarpImageFilter epipolarSize).edgePaddingValue) ∧
    (rightExpr v = 255 ↔ v ≠ (m_RightWarpImageFilter epipolarSize).edgePaddingValue) ∧
    (rightExpr v = 0 ↔ v = (m_RightWarpImageFilter epipolarSize).edgePaddingValue) ∧
    (m_LeftWarpImageFilter epipolarSize).edgePaddingValue = 0 ∧
    (m_RightWarpImageFilter epipolarSize).edgePaddingValue = 0 := by
  have hl : (m_LeftWarpImageFilter epipolarSize).edgePaddingValue = 0 := rfl
  have hr : (m_RightWarpImageFilter epipolarSize).edgePaddingValue = 0 := rfl
  rw [hl, hr]
  unfold leftExpr rightExpr
  by_cases h : v = 0
  · simp [h]
  · simp [h]

end StereoReconstructionExample

namespace DEMProjector

theorem flat_index_inj {n i j i2 j2 : Nat} (hi : i < n) (hi2 : i2 < n)
    (h : j * n + i = j2 * n + i2) : i = i2 ∧ j = j2 := by
  have hm : (j * n + i) % n = (j2 * n + i2) % n := by rw [h]
  have hd : (j * n + i) / n = (j2 * n + i2) / n := by rw [h]
  have hn : 0 < n := by omega
  rw [Nat.mul_comm j n, Nat.mul_comm j2 n] at hm hd
  rw [Nat.mul_add_mod, Nat.mul_add_mod, Nat.mod_eq_of_lt hi, Nat.mod_eq_of_lt hi2] at hm
  rw [Nat.mul_add_div hn, Nat.mul_add_div hn, Nat.div_eq_of_lt hi, Nat.div_eq_of_lt hi2] at hd
  exact ⟨hm, by simpa using hd⟩

theorem mergeCell_written (c : Cell) (e : ℚ) (h : c.written = false ∨ c.elevation < e) :
    mergeCell c e = { written := true, elevation := e } := by
  unfold mergeCell
  rcases h with h | h
  · simp [h]
  · simp [h]

theorem mergeCell_kept (c : Cell) (e : ℚ) (h : ¬ (c.written = false ∨ c.elevation < e)) :
    mergeCell c e = c := by
  unfold mergeCell
  push_neg at h
  have h1 : c.written = true := by simpa using h.1
  have h2 : ¬ (c.elevation < e) := not_lt.mpr h.2
  simp [h1, h2]

theorem mergeCell_comm (c : Cell) (e e2 : ℚ) :
    mergeCell (mergeCell c e) e2 = mergeCell (mergeCell c e2) e := by
  rcases c with ⟨w, v⟩
  unfold mergeCell
  cases w <;> simp <;> split_ifs <;> simp_all <;> linarith

theorem updateCell_cols (g : DEMGrid) (i j : Nat) (e : ℚ) :
    (updateCell g i j e).cols = g.cols := by
  unfold updateCell
  split_ifs
  · split <;> rfl
  · rfl

theorem updateCell_rows (g : DEMGrid) (i j : Nat) (e : ℚ) :
    (updateCell g i j e).rows = g.rows := by
  unfold updateCell
  split_ifs
  · split <;> rfl
  · rfl

theorem updateCell_cells_getElem? (g : DEMGrid) (i j : Nat) (e : ℚ) (n : Nat) :
    (updateCell g i j e).cells[n]? =
      if i < g.cols ∧ j < g.rows ∧ n = j * g.cols + i then
        (g.cells[n]?).map (fun c => mergeCell c e)
      else g.cells[n]? := by
  unfold updateCell
  by_cases hb : i < g.cols ∧ j < g.rows
  · rw [if_pos hb]
    by_cases hn : n = j * g.cols + i
    · subst hn
      rw [if_pos ⟨hb.1, hb.2, rfl⟩]
      cases hc : g.cells[j * g.cols + i]? with
      | none => simp [hc]
      | some c =>
        have hlt : j * g.cols + i < g.cells.length := by
          rcases List.getElem?_eq_some_iff.mp hc with ⟨h, _⟩
          exact h
        simp [List.getElem?_set, hlt]
    · rw [if_neg (fun h => hn h.2.2)]
      cases hc : g.cells[j * g.cols + i]? with
      | none => rfl
      | some c =>
        simp only [List.getElem?_set]
        rw [if_neg (fun h => hn h.symm)]
  · rw [if_neg hb, if_neg (fun h => hb ⟨h.1, h.2.1⟩)]

theorem cellAt_updateCell_same (g : DEMGrid) (i j : Nat) (e : ℚ) :
    cellAt (updateCell g i j e) i j = (cellAt g i j).map (fun c => mergeCell c e) := by
  unfold cellAt
  rw [updateCell_cols, updateCell_rows, updateCell_cells_getElem?]
  by_cases hb : i < g.cols ∧ j < g.rows
  · rw [if_pos hb, if_pos hb, if_pos ⟨hb.1, hb.2, rfl⟩]
  · rw [if_neg hb, if_neg hb]
    rfl

theorem cellAt_updateCell_other (g : DEMGrid) (i j i2 j2 : Nat) (e : ℚ)
    (h : (i2, j2) ≠ (i, j)) : cellAt (updateCell g i j e) i2 j2 = cellAt g i2 j2 := by
  unfold cellAt
  rw [updateCell_cols, updateCell_rows, updateCell_cells_getElem?]
  by_cases hb : i2 < g.cols ∧ j2 < g.rows
  · rw [if_pos hb, if_pos hb]
    rw [if_neg]
    rintro ⟨hi, _, hn⟩
    have := flat_index_inj hb.1 hi hn
    exact h (by rw [this.1, this.2])
  · rw [if_neg hb, if_neg hb]

theorem DEMGrid_ext (g g2 : DEMGrid) (hc : g.cols = g2.cols) (hr : g.rows = g2.rows)
    (hl : ∀ n : Nat, g.cells[n]? = g2.cells[n]?) : g = g2 := by
  rcases g with ⟨c, r, l⟩
  rcases g2 with ⟨c2, r2, l2⟩
  simp only at hc hr hl
  subst hc hr
  have : l = l2 := List.ext_getElem? hl
  rw [this]

theorem updateCell_comm (g : DEMGrid) (i j i2 j2 : Nat) (e e2 : ℚ) :
    updateCell (updateCell g i j e) i2 j2 e2 = updateCell (updateCell g i2 j2 e2) i j e := by
  apply DEMGrid_ext
  · simp only [updateCell_cols]
  · simp only [updateCell_rows]
  · intro n
    simp only [updateCell_cells_getElem?, updateCell_cols, updateCell_rows]
    by_cases h1 : i < g.cols ∧ j < g.rows ∧ n = j * g.cols + i <;>
    by_cases h2 : i2 < g.cols ∧ j2 < g.rows ∧ n = j2 * g.cols + i2
    · rw [if_pos h2, if_pos h1, if_pos h1, if_pos h2]
      cases g.cells[n]? with
      | none => rfl
      | some c => simp [mergeCell_comm c e e2]
    · rw [if_neg h2, if_pos h1, if_pos h1, if_neg h2]
    · rw [if_pos h2, if_neg h1, if_neg h1, if_pos h2]
    · rw [if_neg h2, if_neg h1, if_neg h1, if_neg h2]

theorem projectPoint_comm (cfg : ElevationRange) (g : DEMGrid) (p q : ProjectedPoint) :
    projectPoint cfg (projectPoint cfg g p) q = projectPoint cfg (projectPoint cfg g q) p := by
  unfold projectPoint
  cases offeredElevation cfg p.elevation <;> cases offeredElevation cfg q.elevation
  · rfl
  · rfl
  · rfl
  · exact updateCell_comm g p.col p.row q.col q.row _ _

theorem cellAt_emptyGrid (cols rows i j : Nat) (c : Cell)
    (h : cellAt (emptyGrid cols rows) i j = some c) : c = noData := by
  unfold cellAt emptyGrid at h
  simp only at h
  split_ifs at h
  rcases List.getElem?_eq_some_iff.mp h with ⟨hlt, hc⟩
  rw [← hc]
  simp

/-- C1: the cell update of the DEM Projector writes the candidate elevation into the cell
it lands in exactly when that cell was never written or the candidate is strictly greater
than the stored elevation, keeps the cell as it was otherwise, and changes no other cell; on
an empty grid with elevation range [0,100], the elevations 42, 30 and 55 offered to cell
(5,5) leave it at 42, 42 and 55, all other cells staying no-data. -/
theorem cell_update_writes_iff_unwritten_or_higher :
    (∀ (g : DEMGrid) (i j : Nat) (e : ℚ) (c : Cell), cellAt g i j = some c →
      ((c.written = false ∨ c.elevation < e) →
        cellAt (updateCell g i j e) i j = some { written := true, elevation := e }) ∧
      (¬ (c.written = false ∨ c.elevation < e) →
        cellAt (updateCell g i j e) i j = some c)) ∧
    (∀ (g : DEMGrid) (i j i2 j2 : Nat) (e : ℚ), (i2, j2) ≠ (i, j) →
      cellAt (updateCell g i j e) i2 j2 = cellAt g i2 j2) ∧
    (∀ (cols rows : Nat), 5 < cols → 5 < rows →
      ∀ g1 g2 g3 : DEMGrid,
      g1 = projectPoint ⟨0, 100, false⟩ (emptyGrid cols rows) ⟨5, 5, 42⟩ →
      g2 = projectPoint ⟨0, 100, false⟩ g1 ⟨5, 5, 30⟩ →
      g3 = projectPoint ⟨0, 100, false⟩ g2 ⟨5, 5, 55⟩ →
      cellAt g1 5 5 = some ⟨true, 42⟩ ∧ cellAt g2 5 5 = some ⟨true, 42⟩ ∧
      cellAt g3 5 5 = some ⟨true, 55⟩ ∧
      ∀ i2 j2 c, (i2, j2) ≠ (5, 5) →
        (cellAt g1 i2 j2 = some c → c = noData) ∧
        (cellAt g2 i2 j2 = some c → c = noData) ∧
        (cellAt g3 i2 j2 = some c → c = noData)) := by
  refine ⟨?_, ?_, ?_⟩
  · intro g i j e c hc
    rw [cellAt_updateCell_same, hc]
    constructor
    · intro h
      simp [mergeCell_written c e h]
    · intro h
      simp [mergeCell_kept c e h]
  · intro g i j i2 j2 e h
    exact cellAt_updateCell_other g i j i2 j2 e h
  · intro cols rows hc hr g1 g2 g3 h1 h2 h3
    have e1 : g1 = updateCell (emptyGrid cols rows) 5 5 42 := by
      have o : offeredElevation ⟨0, 100, false⟩ 42 = some 42 := by decide
      rw [h1]; simp only [projectPoint, o]
    have e2 : g2 = updateCell g1 5 5 30 := by
      have o : offeredElevation ⟨0, 100, false⟩ 30 = some 30 := by decide
      rw [h2]; simp only [projectPoint, o]
    have e3 : g3 = updateCell g2 5 5 55 := by
      have o : offeredElevation ⟨0, 100, false⟩ 55 = some 55 := by decide
      rw [h3]; simp only [projectPoint, o]
    have hlt : 5 * cols + 5 < cols * rows := by nlinarith
    have c0 : cellAt (emptyGrid cols rows) 5 5 = some noData := by
      unfold cellAt emptyGrid
      simp [hc, hr, hlt]
    have c1 : cellAt g1 5 5 = some ⟨true, 42⟩ := by
      rw [e1, cellAt_updateCell_same, c0]
      simp [mergeCell, noData]
    have c2 : cellAt g2 5 5 = some ⟨true, 42⟩ := by
      rw [e2, cellAt_updateCell_same, c1]
      have : mergeCell ⟨true, 42⟩ 30 = ⟨true, 42⟩ := by decide
      simp [this]
    have c3 : cellAt g3 5 5 = some ⟨true, 55⟩ := by
      rw [e3, cellAt_updateCell_same, c2]
      have : mergeCell ⟨true, 42⟩ 55 = ⟨true, 55⟩ := by decide
      simp [this]
    refine ⟨c1, c2, c3, ?_⟩
    intro i2 j2 c hne
    have k1 : cellAt g1 i2 j2 = cellAt (emptyGrid cols rows) i2 j2 := by
      rw [e1]; exact cellAt_updateCell_other _ 5 5 i2 j2 _ hne
    have k2 : cellAt g2 i2 j2 = cellAt (emptyGrid cols rows) i2 j2 := by
      rw [e2, cellAt_updateCell_other _ 5 5 i2 j2 _ hne, k1]
    have k3 : cellAt g3 i2 j2 = cellAt (emptyGrid cols rows) i2 j2 := by
      rw [e3, cellAt_updateCell_other _ 5 5 i2 j2 _ hne, k2]
    rw [k1, k2, k3]
    exact ⟨cellAt_emptyGrid _ _ _ _ c, cellAt_emptyGrid _ _ _ _ c, cellAt_emptyGrid _ _ _ _ c⟩

/-- Witness for C1 on grids of 10 x 10 cells: the merge of a written cell holding 42 with
the candidates 30 and 55, and the scenario of cell (5,5). -/
theorem cell_update_writes_iff_unwritten_or_higher_witness :
    cellAt (updateCell (updateCell (emptyGrid 10 10) 5 5 42) 5 5 30) 5 5
        = some { written := true, elevation := 42 } ∧
    cellAt (updateCell (updateCell (emptyGrid 10 10) 5 5 42) 5 5 55) 5 5
        = some { written := true, elevation := 55 } ∧
    cellAt (updateCell (emptyGrid 10 10) 5 5 42) 4 5 = cellAt (emptyGrid 10 10) 4 5 ∧
    cellAt (projectPoint ⟨0, 100, false⟩ (projectPoint ⟨0, 100, false⟩
      (projectPoint ⟨0, 100, false⟩ (emptyGrid 10 10) ⟨5, 5, 42⟩) ⟨5, 5, 30⟩) ⟨5, 5, 55⟩) 5 5
        = some ⟨true, 55⟩ :=
  ⟨(cell_update_writes_iff_unwritten_or_higher.1 (updateCell (emptyGrid 10 10) 5 5 42) 5 5 30
      ⟨true, 42⟩ (by decide)).2 (by decide),
   (cell_update_writes_iff_unwritten_or_higher.1 (updateCell (emptyGrid 10 10) 5 5 42) 5 5 55
      ⟨true, 42⟩ (by decide)).1 (by decide),
   cell_update_writes_iff_unwritten_or_higher.2.1 (emptyGrid 10 10) 5 5 4 5 42 (by decide),
   (cell_update_writes_iff_unwritten_or_higher.2.2 10 10 (by decide) (by decide)
      _ _ _ rfl rfl rfl).2.2.1⟩

/-- C2: applying the max-wins update of the DEM Projector to a list of projected points in
any permuted order, the reverse order included, gives the same final grid as the original
order, with and without the elevation range treatment. -/
theorem accumulate_order_independent (g : DEMGrid) (pts pts2 : List ProjectedPoint)
    (h : pts.Perm pts2) :
    accumulate g pts2 = accumulate g pts ∧
    accumulate g pts.reverse = accumulate g pts ∧
    ∀ cfg : ElevationRange,
      projectAll cfg g pts2 = projectAll cfg g pts ∧
      projectAll cfg g pts.reverse = projectAll cfg g pts := by
  have ha : ∀ l l2 : List ProjectedPoint, l.Perm l2 → accumulate g l2 = accumulate g l := by
    intro l l2 hp
    unfold accumulate
    exact (List.Perm.foldl_eq' hp
      (fun x _ y _ z => updateCell_comm z x.col x.row y.col y.row _ _) g).symm
  have hb : ∀ (cfg : ElevationRange) (l l2 : List ProjectedPoint), l.Perm l2 →
      projectAll cfg g l2 = projectAll cfg g l := by
    intro cfg l l2 hp
    unfold projectAll
    exact (List.Perm.foldl_eq' hp (fun x _ y _ z => projectPoint_comm cfg z x y) g).symm
  exact ⟨ha _ _ h, ha _ _ (List.reverse_perm pts).symm,
    fun cfg => ⟨hb cfg _ _ h, hb cfg _ _ (List.reverse_perm pts).symm⟩⟩

/-- Witness for C2: three points, two of them in the same cell, offered in two orders. -/
theorem accumulate_order_independent_witness :
    accumulate (emptyGrid 3 3) [⟨1, 1, 30⟩, ⟨0, 2, 7⟩, ⟨1, 1, 42⟩]
      = accumulate (emptyGrid 3 3) [⟨1, 1, 42⟩, ⟨1, 1, 30⟩, ⟨0, 2, 7⟩] :=
  (accumulate_order_independent (emptyGrid 3 3) [⟨1, 1, 42⟩, ⟨1, 1, 30⟩, ⟨0, 2, 7⟩]
    [⟨1, 1, 30⟩, ⟨0, 2, 7⟩, ⟨1, 1, 42⟩] (by decide)).1

theorem offeredElevation_in_range (cfg : ElevationRange) (e x : ℚ)
    (hcfg : cfg.elevationMin ≤ cfg.elevationMax) (h : offeredElevation cfg e = some x) :
    cfg.elevationMin ≤ x ∧ x ≤ cfg.elevationMax := by
  unfold offeredElevation at h
  split_ifs at h with h1 h2
  · cases h
    exact h1
  · cases h
    exact ⟨le_max_left _ _, max_le hcfg (min_le_right _ _)⟩

theorem mergeCell_cases (c : Cell) (e : ℚ) :
    (mergeCell c e = { written := true, elevation := e } ∧
      (c.written = false ∨ c.elevation < e)) ∨
    (mergeCell c e = c ∧ c.written = true ∧ e ≤ c.elevation) := by
  by_cases h : c.written = false ∨ c.elevation < e
  · exact Or.inl ⟨mergeCell_written c e h, h⟩
  · refine Or.inr ⟨mergeCell_kept c e h, ?_, ?_⟩
    · push_neg at h
      simpa using h.1
    · push_neg at h
      exact h.2

theorem cellAt_updateCell (g : DEMGrid) (i j i2 j2 : Nat) (e : ℚ) (c2 : Cell)
    (h : cellAt (updateCell g i j e) i2 j2 = some c2) :
    cellAt g i2 j2 = some c2 ∨
      ∃ c, cellAt g i2 j2 = some c ∧ (i2, j2) = (i, j) ∧ c2 = mergeCell c e := by
  by_cases hne : (i2, j2) = (i, j)
  · have h1 : i2 = i := congrArg Prod.fst hne
    have h2 : j2 = j := congrArg Prod.snd hne
    subst h1 h2
    rw [cellAt_updateCell_same] at h
    cases hc : cellAt g i2 j2 with
    | none => rw [hc] at h; cases h
    | some c =>
      rw [hc] at h
      simp only [Option.map_some', Option.some.injEq] at h
      exact Or.inr ⟨c, rfl, rfl, h.symm⟩
  · rw [cellAt_updateCell_other g i j i2 j2 e hne] at h
    exact Or.inl h

theorem writtenInRange_updateCell (cfg : ElevationRange) (g : DEMGrid) (i j : Nat) (e : ℚ)
    (he : cfg.elevationMin ≤ e ∧ e ≤ cfg.elevationMax) (hinv : WrittenInRange cfg g) :
    WrittenInRange cfg (updateCell g i j e) := by
  intro i2 j2 c2 hc2 hw
  rcases cellAt_updateCell g i j i2 j2 e c2 hc2 with h | ⟨c, hc, _, hm⟩
  · exact hinv i2 j2 c2 h hw
  · rcases mergeCell_cases c e with ⟨hmc, _⟩ | ⟨hmc, hcw, _⟩
    · rw [hm, hmc]
      exact he
    · rw [hm, hmc]
      exact hinv i2 j2 c hc hcw

theorem neverLowers_refl (g : DEMGrid) : NeverLowers g g :=
  fun _ _ c hc hw => ⟨c, hc, hw, le_refl _⟩

theorem neverLowers_trans (g g2 g3 : DEMGrid) (h1 : NeverLowers g g2)
    (h2 : NeverLowers g2 g3) : NeverLowers g g3 := by
  intro i j c hc hw
  rcases h1 i j c hc hw with ⟨c2, hc2, hw2, hle2⟩
  rcases h2 i j c2 hc2 hw2 with ⟨c3, hc3, hw3, hle3⟩
  exact ⟨c3, hc3, hw3, le_trans hle2 hle3⟩

theorem neverLowers_updateCell (g : DEMGrid) (i j : Nat) (e : ℚ) :
    NeverLowers g (updateCell g i j e) := by
  intro i2 j2 c hc hw
  by_cases hne : (i2, j2) = (i, j)
  · have h1 : i2 = i := congrArg Prod.fst hne
    have h2 : j2 = j := congrArg Prod.snd hne
    subst h1 h2
    refine ⟨mergeCell c e, ?_, ?_, ?_⟩
    · rw [cellAt_updateCell_same, hc]
      rfl
    · rcases mergeCell_cases c e with ⟨hmc, _⟩ | ⟨hmc, _, _⟩
      · rw [hmc]
      · rw [hmc]; exact hw
    · rcases mergeCell_cases c e with ⟨hmc, hor⟩ | ⟨hmc, _, _⟩
      · rw [hmc]
        rcases hor with hf | hlt
        · rw [hw] at hf; cases hf
        · exact le_of_lt hlt
      · rw [hmc]
  · exact ⟨c, by rw [cellAt_updateCell_other g i j i2 j2 e hne]; exact hc, hw, le_refl _⟩

theorem writtenInRange_projectPoint (cfg : ElevationRange) (g : DEMGrid) (p : ProjectedPoint)
    (hcfg : cfg.elevationMin ≤ cfg.elevationMax) (hinv : WrittenInRange cfg g) :
    WrittenInRange cfg (projectPoint cfg g p) := by
  unfold projectPoint
  cases ho : offeredElevation cfg p.elevation with
  | none => exact hinv
  | some x =>
    exact writtenInRange_updateCell cfg g _ _ x
      (offeredElevation_in_range cfg p.elevation x hcfg ho) hinv

theorem neverLowers_projectPoint (cfg : ElevationRange) (g : DEMGrid) (p : ProjectedPoint) :
    NeverLowers g (projectPoint cfg g p) := by
  unfold projectPoint
  cases offeredElevation cfg p.elevation with
  | none => exact neverLowers_refl g
  | some x => exact neverLowers_updateCell g _ _ x

theorem writtenInRange_emptyGrid (cfg : ElevationRange) (cols rows : Nat) :
    WrittenInRange cfg (emptyGrid cols rows) := by
  intro i j c hc hw
  rw [cellAt_emptyGrid cols rows i j c hc] at hw
  cases hw

/-- C10: across any sequence of DEM Projector updates, every written cell holds an
elevation inside `[elevationMin, elevationMax]`, and a cell that was written stays written
with an elevation greater than or equal to the one it had before; the empty grid, on which
every run starts, satisfies the range property. -/
theorem written_cells_stay_in_range_and_never_decrease (cfg : ElevationRange) (g : DEMGrid)
    (pts : List ProjectedPoint) (hcfg : cfg.elevationMin ≤ cfg.elevationMax)
    (hinv : WrittenInRange cfg g) :
    WrittenInRange cfg (projectAll cfg g pts) ∧
    NeverLowers g (projectAll cfg g pts) ∧
    (∀ p : ProjectedPoint, NeverLowers (projectAll cfg g pts)
      (projectPoint cfg (projectAll cfg g pts) p)) ∧
    ∀ cols rows : Nat, WrittenInRange cfg (emptyGrid cols rows) := by
  have key : ∀ (l : List ProjectedPoint) (g0 : DEMGrid), WrittenInRange cfg g0 →
      WrittenInRange cfg (projectAll cfg g0 l) ∧ NeverLowers g0 (projectAll cfg g0 l) := by
    intro l
    induction l with
    | nil => intro g0 h0; exact ⟨h0, neverLowers_refl g0⟩
    | cons p l ih =>
      intro g0 h0
      have h1 := writtenInRange_projectPoint cfg g0 p hcfg h0
      have h2 := ih (projectPoint cfg g0 p) h1
      exact ⟨h2.1, neverLowers_trans _ _ _ (neverLowers_projectPoint cfg g0 p) h2.2⟩
  exact ⟨(key pts g hinv).1, (key pts g hinv).2,
    fun p => neverLowers_projectPoint cfg _ p, writtenInRange_emptyGrid cfg⟩

/-- Witness for C10: elevations 42, 130 (out of range, discarded), 30 and 55 offered to
cells of an empty 3 x 3 grid with range [0,100]. -/
theorem written_cells_stay_in_range_and_never_decrease_witness :
    (0 : ℚ) ≤ 100 ∧
    WrittenInRange ⟨0, 100, false⟩ (projectAll ⟨0, 100, false⟩ (emptyGrid 3 3)
      [⟨1, 1, 42⟩, ⟨2, 0, 130⟩, ⟨1, 1, 30⟩, ⟨1, 1, 55⟩]) ∧
    cellAt (projectAll ⟨0, 100, false⟩ (emptyGrid 3 3)
      [⟨1, 1, 42⟩, ⟨2, 0, 130⟩, ⟨1, 1, 30⟩, ⟨1, 1, 55⟩]) 1 1 = some ⟨true, 55⟩ ∧
    cellAt (projectAll ⟨0, 100, false⟩ (emptyGrid 3 3)
      [⟨1, 1, 42⟩, ⟨2, 0, 130⟩, ⟨1, 1, 30⟩, ⟨1, 1, 55⟩]) 2 0 = some noData :=
  ⟨by decide,
   (written_cells_stay_in_range_and_never_decrease ⟨0, 100, false⟩ (emptyGrid 3 3)
      [⟨1, 1, 42⟩, ⟨2, 0, 130⟩, ⟨1, 1, 30⟩, ⟨1, 1, 55⟩] (by decide)
      (writtenInRange_emptyGrid _ 3 3)).1,
   by decide, by decide⟩

end DEMProjector

namespace BlockMatcher

theorem mem_intRange (lo hi z : Int) : z ∈ intRange lo hi ↔ lo ≤ z ∧ z ≤ hi := by
  unfold intRange
  constructor
  · intro h
    obtain ⟨k, hk, hz⟩ := List.mem_map.mp h
    have hk2 : k < (hi + 1 - lo).toNat := List.mem_range.mp hk
    omega
  · rintro ⟨h1, h2⟩
    refine List.mem_map.mpr ⟨(z - lo).toNat, List.mem_range.mpr ?_, ?_⟩
    · omega
    · omega

theorem better_irrefl (m : Bool) (s : ℚ) : better m s s = false := by
  cases m <;> simp [better]

theorem better_of_better_of_not (m : Bool) (a b x : ℚ) (h1 : better m a b = true)
    (h2 : better m a x = false) : better m b x = false := by
  cases m <;> simp [better] at h1 h2 ⊢ <;> linarith

theorem better_not_trans (m : Bool) (a b x : ℚ) (h1 : better m a b = false)
    (h2 : better m b x = false) : better m a x = false := by
  cases m <;> simp [better] at h1 h2 ⊢ <;> linarith

theorem better_antisymm (m : Bool) (a b : ℚ) (h1 : better m a b = false)
    (h2 : better m b a = false) : a = b := by
  cases m <;> simp [better] at h1 h2 <;> linarith

theorem attainsOptimum_cons (m : Bool) (b : (Int × Int) × ℚ) (l : List ((Int × Int) × ℚ))
    (x : (Int × Int) × ℚ) :
    attainsOptimum m (b :: l) x = (!better m b.2 x.2 && attainsOptimum m l x) := by
  simp [attainsOptimum]

theorem attainsOptimum_score (m : Bool) (l : List ((Int × Int) × ℚ))
    (x z : (Int × Int) × ℚ) (h : x.2 = z.2) : attainsOptimum m l x = attainsOptimum m l z := by
  simp [attainsOptimum, h]

theorem find?_congr_mem {α : Type} (p q : α → Bool) (l : List α)
    (h : ∀ x ∈ l, p x = q x) : l.find? p = l.find? q := by
  induction l with
  | nil => rfl
  | cons a l ih =>
    simp only [List.find?_cons]
    rw [h a (List.mem_cons_self a l), ih (fun x hx => h x (List.mem_cons_of_mem a hx))]

theorem foldl_keepBest_some (m : Bool) (l : List ((Int × Int) × ℚ)) :
    ∀ b : (Int × Int) × ℚ,
      l.foldl (keepBest m) (some b) = (b :: l).find? (attainsOptimum m (b :: l)) := by
  induction l with
  | nil =>
    intro b
    simp [attainsOptimum, better_irrefl]
  | cons a l ih =>
    intro b
    rw [List.foldl_cons]
    by_cases h : better m a.2 b.2 = true
    · have hk : keepBest m (some b) a = some a := by simp [keepBest, h]
      rw [hk, ih a]
      have hb : attainsOptimum m (b :: a :: l) b = false := by
        simp [attainsOptimum_cons, h]
      rw [List.find?_cons (a := b), hb]
      apply find?_congr_mem
      intro x _
      rw [attainsOptimum_cons m b (a :: l) x]
      cases hx : attainsOptimum m (a :: l) x with
      | false => simp
      | true =>
        rw [attainsOptimum_cons] at hx
        have hax : better m a.2 x.2 = false := by
          cases hq : better m a.2 x.2 with
          | false => rfl
          | true => rw [hq] at hx; simp at hx
        rw [better_of_better_of_not m a.2 b.2 x.2 h hax]
        rfl
    · have h0 : better m a.2 b.2 = false := by
        cases hq : better m a.2 b.2 with
        | false => rfl
        | true => exact absurd hq h
      have hk : keepBest m (some b) a = some b := by simp [keepBest, h0]
      rw [hk, ih b]
      have hbb : attainsOptimum m (b :: a :: l) b = attainsOptimum m (b :: l) b := by
        simp [attainsOptimum_cons, h0]
      rw [List.find?_cons (a := b), List.find?_cons (a := b), hbb]
      cases hb : attainsOptimum m (b :: l) b with
      | true => rfl
      | false =>
        simp only []
        have hbl : attainsOptimum m l b = false := by
          rw [attainsOptimum_cons, better_irrefl] at hb
          simpa using hb
        have ha : attainsOptimum m (b :: a :: l) a = false := by
          cases hq : attainsOptimum m (b :: a :: l) a with
          | false => rfl
          | true =>
            rw [attainsOptimum_cons, attainsOptimum_cons] at hq
            simp only [Bool.and_eq_true, Bool.not_eq_true'] at hq
            have hab : a.2 = b.2 := better_antisymm m a.2 b.2 h0 hq.1
            rw [attainsOptimum_score m l a b hab, hbl] at hq
            exact absurd hq.2.2 (by simp)
        rw [List.find?_cons (a := a), ha]
        apply find?_congr_mem
        intro x _
        rw [attainsOptimum_cons m b (a :: l) x, attainsOptimum_cons m a l x,
          attainsOptimum_cons m b l x]
        cases hbx : better m b.2 x.2 with
        | true => simp
        | false =>
          rw [better_not_trans m a.2 b.2 x.2 h0 hbx]
          simp

theorem foldl_keepBest_none (m : Bool) (l : List ((Int × Int) × ℚ)) :
    l.foldl (keepBest m) none = l.find? (attainsOptimum m l) := by
  cases l with
  | nil => rfl
  | cons a l =>
    rw [List.foldl_cons]
    exact foldl_keepBest_some m l a

theorem matchPixel_eq_find (cfg : Config) (left right : Raster ℚ)
    (leftMask rightMask : Raster Bool) (x y : Int) :
    matchPixel cfg left right leftMask rightMask x y =
      if leftPixelValid cfg left leftMask x y then
        (scoredCandidates cfg left right rightMask x y).find?
          (attainsOptimum cfg.minimize (scoredCandidates cfg left right rightMask x y))
      else none := by
  unfold matchPixel
  rw [foldl_keepBest_none]

theorem mem_scoredCandidates (cfg : Config) (left right : Raster ℚ) (rightMask : Raster Bool)
    (x y : Int) (d : (Int × Int) × ℚ) :
    d ∈ scoredCandidates cfg left right rightMask x y ↔
      d.1 ∈ candidates cfg ∧ candidateValid cfg right rightMask x y d.1 = true ∧
        d.2 = score cfg left right x y d.1 := by
  unfold scoredCandidates
  simp only [List.mem_map, List.mem_filter]
  constructor
  · rintro ⟨c, ⟨hc, hv⟩, rfl⟩
    exact ⟨hc, hv, rfl⟩
  · rintro ⟨hc, hv, hs⟩
    exact ⟨d.1, ⟨hc, hv⟩, by rw [← hs]⟩

theorem matchPixel_some (cfg : Config) (left right : Raster ℚ)
    (leftMask rightMask : Raster Bool) (x y : Int) (d : (Int × Int) × ℚ)
    (h : matchPixel cfg left right leftMask rightMask x y = some d) :
    leftPixelValid cfg left leftMask x y = true ∧
    attainsOptimum cfg.minimize (scoredCandidates cfg left right rightMask x y) d = true ∧
    ∃ pre post, scoredCandidates cfg left right rightMask x y = pre ++ d :: post ∧
      ∀ o ∈ pre, attainsOptimum cfg.minimize
        (scoredCandidates cfg left right rightMask x y) o = false := by
  rw [matchPixel_eq_find] at h
  split_ifs at h with hv
  rcases List.find?_eq_some.mp h with ⟨hopt, pre, post, hl, hpre⟩
  refine ⟨hv, hopt, pre, post, hl, ?_⟩
  intro o ho
  have := hpre o ho
  simpa using this

theorem better_of_not_attains (m : Bool) (l : List ((Int × Int) × ℚ))
    (d o : (Int × Int) × ℚ) (hd : attainsOptimum m l d = true)
    (ho : attainsOptimum m l o = false) : better m d.2 o.2 = true := by
  unfold attainsOptimum at hd ho
  rw [List.all_eq_true] at hd
  have hex : ∃ z ∈ l, better m z.2 o.2 = true := by
    by_contra hne
    push_neg at hne
    have : l.all (fun z => !better m z.2 o.2) = true := by
      rw [List.all_eq_true]
      intro z hz
      have := hne z hz
      simp [this]
    rw [this] at ho
    cases ho
  rcases hex with ⟨z, hz, hzo⟩
  have hzd : better m z.2 d.2 = false := by
    have := hd z hz
    simpa using this
  cases m <;> simp [better] at hzo hzd ⊢ <;> linarith

/-- C5: the Block Matcher at a valid left pixel returns the first candidate, in the
enumeration order of the search window, among the candidates that attain the optimal metric
value: every candidate enumerated before the selected one is strictly worse and no
candidate is strictly better, so the output is a function of the inputs and the
configuration. -/
theorem matcher_selects_first_optimal_candidate (cfg : Config) (left right : Raster ℚ)
    (leftMask rightMask : Raster Bool) (x y : Int) :
    (matchPixel cfg left right leftMask rightMask x y =
      if leftPixelValid cfg left leftMask x y then
        (scoredCandidates cfg left right rightMask x y).find?
          (attainsOptimum cfg.minimize (scoredCandidates cfg left right rightMask x y))
      else none) ∧
    (∀ d, matchPixel cfg left right leftMask rightMask x y = some d →
      ∃ pre post, scoredCandidates cfg left right rightMask x y = pre ++ d :: post ∧
        (∀ o ∈ pre, better cfg.minimize d.2 o.2 = true) ∧
        (∀ o ∈ post, better cfg.minimize o.2 d.2 = false)) := by
  refine ⟨matchPixel_eq_find cfg left right leftMask rightMask x y, ?_⟩
  intro d h
  rcases matchPixel_some cfg left right leftMask rightMask x y d h with
    ⟨_, hopt, pre, post, hl, hpre⟩
  refine ⟨pre, post, hl, ?_, ?_⟩
  · intro o ho
    exact better_of_not_attains _ _ d o hopt (hpre o ho)
  · intro o ho
    unfold attainsOptimum at hopt
    rw [List.all_eq_true] at hopt
    have := hopt o (by rw [hl]; simp [ho])
    simpa using this

/-- Witness for C5: on a flat image pair all eleven candidates of pixel (50,50) have the
metric 0, and the first one of the enumeration, (-10,0), is returned. -/
theorem matcher_selects_first_optimal_candidate_witness :
    matchPixel shiftConfig flatImage flatImage fullMask fullMask 50 50 = some ((-10, 0), 0) :=
  (matcher_selects_first_optimal_candidate shiftConfig flatImage flatImage fullMask fullMask
    50 50).1.trans (by decide!)

theorem better_asymm (m : Bool) (a b : ℚ) (h : better m a b = true) :
    better m b a = false := by
  cases m <;> simp [better] at h ⊢ <;> linarith

theorem foldl_keepBest_isSome (m : Bool) (l : List ((Int × Int) × ℚ)) (h : l ≠ []) :
    (l.foldl (keepBest m) none).isSome = true := by
  have key : ∀ (l2 : List ((Int × Int) × ℚ)) (b : (Int × Int) × ℚ),
      (l2.foldl (keepBest m) (some b)).isSome = true := by
    intro l2
    induction l2 with
    | nil => intro b; rfl
    | cons a l2 ih =>
      intro b
      rw [List.foldl_cons]
      unfold keepBest
      simp only
      split_ifs
      · exact ih a
      · exact ih b
  cases l with
  | nil => exact absurd rfl h
  | cons a l => exact key l a

theorem matchPixel_isSome_iff (cfg : Config) (left right : Raster ℚ)
    (leftMask rightMask : Raster Bool) (x y : Int) :
    (matchPixel cfg left right leftMask rightMask x y).isSome = true ↔
      leftPixelValid cfg left leftMask x y = true ∧
        ∃ c ∈ candidates cfg, candidateValid cfg right rightMask x y c = true := by
  constructor
  · intro h
    cases hm : matchPixel cfg left right leftMask rightMask x y with
    | none => rw [hm] at h; cases h
    | some e =>
      rcases matchPixel_some cfg left right leftMask rightMask x y e hm with
        ⟨hv, _, pre, post, hl, _⟩
      have hme : e ∈ scoredCandidates cfg left right rightMask x y := by rw [hl]; simp
      rw [mem_scoredCandidates] at hme
      exact ⟨hv, e.1, hme.1, hme.2.1⟩
  · rintro ⟨hv, c, hc, hcv⟩
    unfold matchPixel
    rw [if_pos hv]
    apply foldl_keepBest_isSome
    intro hnil
    have : (c, score cfg left right x y c) ∈ scoredCandidates cfg left right rightMask x y := by
      rw [mem_scoredCandidates]
      exact ⟨hc, hcv, rfl⟩
    rw [hnil] at this
    cases this

end BlockMatcher

namespace MedianFilter

open BlockMatcher (Raster intRange mem_intRange)

theorem median_eq_getElem (l : List ℚ) (h : l ≠ []) :
    ∃ hk : l.length / 2 < (l.insertionSort (fun a b => a ≤ b)).length,
      median l = (l.insertionSort (fun a b => a ≤ b))[l.length / 2] := by
  have hpos : 0 < l.length := List.length_pos.mpr h
  have hk : l.length / 2 < (l.insertionSort (fun a b => a ≤ b)).length := by
    rw [List.length_insertionSort]
    omega
  exact ⟨hk, List.getD_eq_getElem _ 0 hk⟩

theorem median_mem (l : List ℚ) (h : l ≠ []) : median l ∈ l := by
  obtain ⟨hk, hm⟩ := median_eq_getElem l h
  rw [hm]
  exact (List.perm_insertionSort (fun a b => a ≤ b) l).subset (List.getElem_mem hk)

theorem median_ne_of_unique_extreme (l : List ℚ) (s : ℚ) (hn : 3 ≤ l.length)
    (hc : l.count s ≤ 1) (hext : (∀ z ∈ l, z ≤ s) ∨ (∀ z ∈ l, s ≤ z)) : median l ≠ s := by
  have hne : l ≠ [] := by
    intro h
    rw [h] at hn
    simp at hn
  obtain ⟨hk, hm⟩ := median_eq_getElem l hne
  have hlen : (l.insertionSort (fun a b => a ≤ b)).length = l.length :=
    List.length_insertionSort _ l
  have hperm := List.perm_insertionSort (fun a b : ℚ => a ≤ b) l
  have hsorted : List.Sorted (fun a b : ℚ => a ≤ b) (l.insertionSort (fun a b => a ≤ b)) :=
    List.sorted_insertionSort _ l
  have hpw := List.pairwise_iff_getElem.mp hsorted
  intro hms
  rw [hm] at hms
  have hdup : ∀ (i j : Nat) (hi : i < (l.insertionSort (fun a b => a ≤ b)).length)
      (hj : j < (l.insertionSort (fun a b => a ≤ b)).length), i < j →
      (l.insertionSort (fun a b => a ≤ b))[i] = s →
      (l.insertionSort (fun a b => a ≤ b))[j] = s → False := by
    intro i j hi hj hij h1 h2
    have hd : List.Duplicate s (l.insertionSort (fun a b => a ≤ b)) := by
      rw [List.duplicate_iff_exists_distinct_get]
      exact ⟨⟨i, hi⟩, ⟨j, hj⟩, hij, by simp [h1], by simp [h2]⟩
    rw [List.duplicate_iff_two_le_count, hperm.count_eq s] at hd
    omega
  rcases hext with hmax | hmin
  · have hj : l.length - 1 < (l.insertionSort (fun a b => a ≤ b)).length := by omega
    have hlt : l.length / 2 < l.length - 1 := by omega
    have h1 := hpw (l.length / 2) (l.length - 1) hk hj hlt
    have h2 := hmax _ (hperm.subset (List.getElem_mem hj))
    rw [hms] at h1
    exact hdup _ _ hk hj hlt hms (le_antisymm h2 h1)
  · have h0 : 0 < (l.insertionSort (fun a b => a ≤ b)).length := by omega
    have hlt : 0 < l.length / 2 := by omega
    have h1 := hpw 0 (l.length / 2) h0 hk hlt
    have h2 := hmin _ (hperm.subset (List.getElem_mem h0))
    rw [hms] at h1
    exact hdup _ _ h0 hk hlt (le_antisymm h1 h2) hms

theorem intRange_nodup (lo hi : Int) : (intRange lo hi).Nodup := by
  unfold intRange
  apply List.Nodup.map _ (List.nodup_range _)
  intro a b hab
  simp only at hab
  omega

theorem neighbourhood_nodup (r : Nat) (x y : Int) : (neighbourhood r x y).Nodup := by
  unfold neighbourhood
  exact List.Nodup.product (intRange_nodup _ _) (intRange_nodup _ _)

theorem mem_neighbourhood (r : Nat) (x y : Int) (p : Int × Int) :
    p ∈ neighbourhood r x y ↔
      (x - r ≤ p.1 ∧ p.1 ≤ x + r) ∧ (y - r ≤ p.2 ∧ p.2 ≤ y + r) := by
  unfold neighbourhood
  rcases p with ⟨a, b⟩
  refine (@List.mem_product _ _ (intRange (x - r) (x + r)) (intRange (y - r) (y + r))
    a b).trans ?_
  rw [mem_intRange, mem_intRange]

theorem self_mem_neighbourhood (r : Nat) (x y : Int) : (x, y) ∈ neighbourhood r x y := by
  rw [mem_neighbourhood]
  simp only
  omega

theorem mem_neighbourhood_symm (r : Nat) (x y x2 y2 : Int)
    (h : (x2, y2) ∈ neighbourhood r x y) : (x, y) ∈ neighbourhood r x2 y2 := by
  rw [mem_neighbourhood] at h ⊢
  simp only at h ⊢
  omega

theorem mem_validNeighbours (r : Nat) (disp : Raster ℚ) (mask : Raster Bool) (x y : Int)
    (z : ℚ) :
    z ∈ validNeighbours r disp mask x y ↔
      ∃ p, p ∈ neighbourhood r x y ∧ pixelValid mask p.1 p.2 = true ∧ disp.pix p.1 p.2 = z := by
  unfold validNeighbours
  simp only [List.mem_map, List.mem_filter]
  constructor
  · rintro ⟨p, ⟨h1, h2⟩, h3⟩
    exact ⟨p, h1, h2, h3⟩
  · rintro ⟨p, h1, h2, h3⟩
    exact ⟨p, ⟨h1, h2⟩, h3⟩

theorem validNeighbours_ne_nil (r : Nat) (disp : Raster ℚ) (mask : Raster Bool) (x y : Int)
    (h : pixelValid mask x y = true) : validNeighbours r disp mask x y ≠ [] := by
  have : disp.pix x y ∈ validNeighbours r disp mask x y := by
    rw [mem_validNeighbours]
    exact ⟨(x, y), self_mem_neighbourhood r x y, h, rfl⟩
  intro hnil
  rw [hnil] at this
  cases this

theorem countP_le_one_of_nodup (l : List (Int × Int)) (hnd : l.Nodup) (p0 : Int × Int)
    (q : Int × Int → Bool) (h : ∀ p ∈ l, q p = true → p = p0) : l.countP q ≤ 1 := by
  induction l with
  | nil => simp
  | cons a l ih =>
    rw [List.nodup_cons] at hnd
    have ih2 := ih hnd.2 (fun p hp => h p (List.mem_cons_of_mem a hp))
    rw [List.countP_cons]
    by_cases hq : q a = true
    · have ha : a = p0 := h a (List.mem_cons_self a l) hq
      have hz : l.countP q = 0 := by
        rw [List.countP_eq_zero]
        intro p hp hqp
        have hpp : p = p0 := h p (List.mem_cons_of_mem a hp) hqp
        rw [hpp, ← ha] at hp
        exact hnd.1 hp
      rw [hz, if_pos hq]
    · rw [if_neg hq]
      omega

theorem count_validNeighbours_le_one (r : Nat) (disp : Raster ℚ) (mask : Raster Bool)
    (x y : Int) (p0 : Int × Int) (s : ℚ)
    (h : ∀ p ∈ neighbourhood r x y, pixelValid mask p.1 p.2 = true →
      disp.pix p.1 p.2 = s → p = p0) :
    (validNeighbours r disp mask x y).count s ≤ 1 := by
  unfold validNeighbours
  rw [List.count_eq_countP, List.countP_map]
  have hnd : ((neighbourhood r x y).filter (fun p => pixelValid mask p.1 p.2)).Nodup :=
    List.Nodup.filter _ (neighbourhood_nodup r x y)
  apply countP_le_one_of_nodup _ hnd p0
  intro p hp hps
  rw [List.mem_filter] at hp
  simp only [Function.comp, beq_iff_eq] at hps
  exact h p hp.1 hp.2 hps

theorem filterPixel_kept (r : Nat) (t : ℚ) (disp : Raster ℚ) (mask : Raster Bool) (x y : Int)
    (hv : pixelValid mask x y = true)
    (h : |disp.pix x y - median (validNeighbours r disp mask x y)| ≤ t) :
    filterPixel r t disp mask x y = some (disp.pix x y) := by
  unfold filterPixel
  rw [if_pos hv, if_neg (not_lt.mpr h)]

theorem filterPixel_rejected (r : Nat) (t : ℚ) (disp : Raster ℚ) (mask : Raster Bool)
    (x y : Int) (hv : pixelValid mask x y = true)
    (h : |disp.pix x y - median (validNeighbours r disp mask x y)| > t) :
    filterPixel r t disp mask x y = none := by
  unfold filterPixel
  rw [if_pos hv, if_pos h]

theorem median_is_background (r : Nat) (disp : Raster ℚ) (mask : Raster Bool)
    (x y x0 y0 : Int)
    (hv : pixelValid mask x y = true)
    (hn : (x0, y0) ∈ neighbourhood r x y → 3 ≤ (validNeighbours r disp mask x y).length)
    (hlow : ∀ q ∈ neighbourhood r x y, pixelValid mask q.1 q.2 = true → q ≠ (x0, y0) →
      disp.pix q.1 q.2 < disp.pix x0 y0 →
      ∀ q2 ∈ neighbourhood r x y, pixelValid mask q2.1 q2.2 = true → q2 ≠ (x0, y0) →
        disp.pix q2.1 q2.2 < disp.pix x0 y0)
    (hne : ∀ q ∈ neighbourhood r x y, pixelValid mask q.1 q.2 = true → q ≠ (x0, y0) →
      disp.pix q.1 q.2 ≠ disp.pix x0 y0) :
    ∃ q ∈ neighbourhood r x y, pixelValid mask q.1 q.2 = true ∧ q ≠ (x0, y0) ∧
      disp.pix q.1 q.2 = median (validNeighbours r disp mask x y) := by
  have hmem := median_mem _ (validNeighbours_ne_nil r disp mask x y hv)
  rw [mem_validNeighbours] at hmem
  obtain ⟨q, hq, hqv, hqm⟩ := hmem
  by_cases hq0 : q = (x0, y0)
  · exfalso
    have hs : median (validNeighbours r disp mask x y) = disp.pix x0 y0 := by
      rw [← hqm, hq0]
    have hin : (x0, y0) ∈ neighbourhood r x y := by rw [← hq0]; exact hq
    have hcount : (validNeighbours r disp mask x y).count (disp.pix x0 y0) ≤ 1 := by
      apply count_validNeighbours_le_one r disp mask x y (x0, y0)
      intro p hp hpv hps
      by_contra hpne
      exact hne p hp hpv hpne hps
    have hext : (∀ z ∈ validNeighbours r disp mask x y, z ≤ disp.pix x0 y0) ∨
        (∀ z ∈ validNeighbours r disp mask x y, disp.pix x0 y0 ≤ z) := by
      by_cases hall : ∀ z ∈ validNeighbours r disp mask x y, z ≤ disp.pix x0 y0
      · exact Or.inl hall
      · right
        push_neg at hall
        obtain ⟨z0, hz0, hz0s⟩ := hall
        rw [mem_validNeighbours] at hz0
        obtain ⟨p1, hp1, hp1v, hp1z⟩ := hz0
        have hp1ne : p1 ≠ (x0, y0) := by
          intro h
          rw [h] at hp1z
          rw [← hp1z] at hz0s
          exact lt_irrefl _ hz0s
        intro z hz
        rw [mem_validNeighbours] at hz
        obtain ⟨p2, hp2, hp2v, hp2z⟩ := hz
        by_cases hp2e : p2 = (x0, y0)
        · rw [← hp2z, hp2e]
        · by_contra hlt
          push_neg at hlt
          rw [← hp2z] at hlt
          have := hlow p2 hp2 hp2v hp2e hlt p1 hp1 hp1v hp1ne
          rw [hp1z] at this
          exact lt_irrefl _ (lt_trans this hz0s)
    exact median_ne_of_unique_extreme _ _ (hn hin) hcount hext hs
  · exact ⟨q, hq, hqv, hq0, hqm⟩

theorem length_le_one_of_nodup_of_all_eq (l : List (Int × Int)) (p0 : Int × Int)
    (hnd : l.Nodup) (h : ∀ q ∈ l, q = p0) : l.length ≤ 1 := by
  match l, hnd, h with
  | [], _, _ => simp
  | [_], _, _ => simp
  | a :: b :: _, hnd, h =>
    exfalso
    have ha : a = p0 := h a (by simp)
    have hb : b = p0 := h b (by simp)
    rw [List.nodup_cons] at hnd
    exact hnd.1 (by rw [ha, hb]; simp)

theorem exists_background_neighbour (r : Nat) (disp : Raster ℚ) (mask : Raster Bool)
    (x y : Int) (p0 : Int × Int) (h3 : 3 ≤ (validNeighbours r disp mask x y).length) :
    ∃ q ∈ neighbourhood r x y, pixelValid mask q.1 q.2 = true ∧ q ≠ p0 := by
  by_contra hno
  push_neg at hno
  unfold validNeighbours at h3
  rw [List.length_map] at h3
  have hle := length_le_one_of_nodup_of_all_eq
    ((neighbourhood r x y).filter (fun p => pixelValid mask p.1 p.2)) p0
    (List.Nodup.filter _ (neighbourhood_nodup r x y))
    (by
      intro q hq
      rw [List.mem_filter] at hq
      exact hno q hq.1 hq.2)
  omega

theorem spike_among_smooth_background (r : Nat) (t : ℚ) (disp : Raster ℚ)
    (mask : Raster Bool) :
    (∀ x y, pixelValid mask x y = true →
      (filterPixel r t disp mask x y = none ↔
        |disp.pix x y - median (validNeighbours r disp mask x y)| > t) ∧
      (¬ (|disp.pix x y - median (validNeighbours r disp mask x y)| > t) →
        filterPixel r t disp mask x y = some (disp.pix x y))) ∧
    (∀ x y, pixelValid mask x y = false → filterPixel r t disp mask x y = none) ∧
    ((∀ x y, pixelValid mask x y = true → ∀ q ∈ neighbourhood r x y,
        pixelValid mask q.1 q.2 = true → |disp.pix x y - disp.pix q.1 q.2| ≤ t) →
      ∀ x y, pixelValid mask x y = true →
        filterPixel r t disp mask x y = some (disp.pix x y)) ∧
    (∀ x0 y0, pixelValid mask x0 y0 = true →
      (∀ x y, pixelValid mask x y = true →
        ∀ q1 ∈ neighbourhood r x y, ∀ q2 ∈ neighbourhood r x y,
          pixelValid mask q1.1 q1.2 = true → pixelValid mask q2.1 q2.2 = true →
          q1 ≠ (x0, y0) → q2 ≠ (x0, y0) → |disp.pix q1.1 q1.2 - disp.pix q2.1 q2.2| ≤ t) →
      (∀ q ∈ neighbourhood r x0 y0, pixelValid mask q.1 q.2 = true → q ≠ (x0, y0) →
        |disp.pix x0 y0 - disp.pix q.1 q.2| > t) →
      (∀ x y, pixelValid mask x y = true → (x0, y0) ∈ neighbourhood r x y →
        3 ≤ (validNeighbours r disp mask x y).length) →
      filterPixel r t disp mask x0 y0 = none ∧
      ∀ x y, pixelValid mask x y = true → (x, y) ≠ (x0, y0) →
        filterPixel r t disp mask x y = some (disp.pix x y)) := by
  refine ⟨?_, ?_, ?_, ?_⟩
  · intro x y hv
    constructor
    · constructor
      · intro h
        by_contra hn
        rw [filterPixel_kept r t disp mask x y hv (not_lt.mp hn)] at h
        cases h
      · exact filterPixel_rejected r t disp mask x y hv
    · intro hn
      exact filterPixel_kept r t disp mask x y hv (not_lt.mp hn)
  · intro x y hv
    unfold filterPixel
    rw [hv]
    rfl
  · intro hsmooth x y hv
    apply filterPixel_kept r t disp mask x y hv
    have hmem := median_mem _ (validNeighbours_ne_nil r disp mask x y hv)
    rw [mem_validNeighbours] at hmem
    obtain ⟨q, hq, hqv, hqm⟩ := hmem
    rw [← hqm]
    exact hsmooth x y hv q hq hqv
  · intro x0 y0 hv0 hbg hspike hcount
    have ht : 0 ≤ t := by
      obtain ⟨q, hq, hqv, hq0⟩ := exists_background_neighbour r disp mask x0 y0 (x0, y0)
        (hcount x0 y0 hv0 (self_mem_neighbourhood r x0 y0))
      have := hbg x0 y0 hv0 q hq q hq hqv hqv hq0 hq0
      rwa [sub_self, abs_zero] at this
    constructor
    · have hne : ∀ q ∈ neighbourhood r x0 y0, pixelValid mask q.1 q.2 = true →
          q ≠ (x0, y0) → disp.pix q.1 q.2 ≠ disp.pix x0 y0 := by
        intro q hq hqv hq0 heq
        have := hspike q hq hqv hq0
        rw [heq, sub_self, abs_zero] at this
        exact absurd this (not_lt.mpr ht)
      have hlow : ∀ q ∈ neighbourhood r x0 y0, pixelValid mask q.1 q.2 = true →
          q ≠ (x0, y0) → disp.pix q.1 q.2 < disp.pix x0 y0 →
          ∀ q2 ∈ neighbourhood r x0 y0, pixelValid mask q2.1 q2.2 = true → q2 ≠ (x0, y0) →
            disp.pix q2.1 q2.2 < disp.pix x0 y0 := by
        intro q hq hqv hq0 hlt q2 hq2 hq2v hq20
        have h1 := hspike q hq hqv hq0
        have h2 := abs_le.mp (hbg x0 y0 hv0 q hq q2 hq2 hqv hq2v hq0 hq20)
        rw [gt_iff_lt, lt_abs] at h1
        rcases h1 with h1 | h1 <;> linarith [h2.1, h2.2]
      obtain ⟨q, hq, hqv, hq0, hqm⟩ := median_is_background r disp mask x0 y0 x0 y0 hv0
        (fun _ => hcount x0 y0 hv0 (self_mem_neighbourhood r x0 y0)) hlow hne
      apply filterPixel_rejected r t disp mask x0 y0 hv0
      rw [← hqm]
      exact hspike q hq hqv hq0
    · intro x y hv hxy
      apply filterPixel_kept r t disp mask x y hv
      have hself := self_mem_neighbourhood r x y
      by_cases hin : (x0, y0) ∈ neighbourhood r x y
      · have hdev := hspike (x, y) (mem_neighbourhood_symm r x y x0 y0 hin) hv hxy
        simp only at hdev
        rw [gt_iff_lt, lt_abs] at hdev
        have hclose : ∀ q ∈ neighbourhood r x y, pixelValid mask q.1 q.2 = true →
            q ≠ (x0, y0) → |disp.pix x y - disp.pix q.1 q.2| ≤ t :=
          fun q hq hqv hq0 => hbg x y hv (x, y) hself q hq hv hqv hxy hq0
        have hne : ∀ q ∈ neighbourhood r x y, pixelValid mask q.1 q.2 = true →
            q ≠ (x0, y0) → disp.pix q.1 q.2 ≠ disp.pix x0 y0 := by
          intro q hq hqv hq0 heq
          have h2 := abs_le.mp (hclose q hq hqv hq0)
          rw [heq] at h2
          rcases hdev with h1 | h1 <;> linarith [h2.1, h2.2]
        have hlow : ∀ q ∈ neighbourhood r x y, pixelValid mask q.1 q.2 = true →
            q ≠ (x0, y0) → disp.pix q.1 q.2 < disp.pix x0 y0 →
            ∀ q2 ∈ neighbourhood r x y, pixelValid mask q2.1 q2.2 = true → q2 ≠ (x0, y0) →
              disp.pix q2.1 q2.2 < disp.pix x0 y0 := by
          intro q hq hqv hq0 hlt q2 hq2 hq2v hq20
          have h2 := abs_le.mp (hclose q hq hqv hq0)
          have h3 := abs_le.mp (hclose q2 hq2 hq2v hq20)
          rcases hdev with h1 | h1 <;> linarith [h2.1, h2.2, h3.1, h3.2]
        obtain ⟨q, hq, hqv, hq0, hqm⟩ := median_is_background r disp mask x y x0 y0 hv
          (fun h => hcount x y hv h) hlow hne
        rw [← hqm]
        exact hclose q hq hqv hq0
      · have hmem := median_mem _ (validNeighbours_ne_nil r disp mask x y hv)
        rw [mem_validNeighbours] at hmem
        obtain ⟨q, hq, hqv, hqm⟩ := hmem
        have hq0 : q ≠ (x0, y0) := by
          intro h
          rw [h] at hq
          exact hin hq
        rw [← hqm]
        exact hbg x y hv (x, y) hself q hq hv hqv hxy hq0

theorem spikeField_background (q : Int × Int) (h : q ≠ (2, 2)) :
    spikeField.pix q.1 q.2 = (q.1 : ℚ) / 2 := by
  rcases q with ⟨a, b⟩
  simp only [spikeField]
  rw [if_neg]
  rintro ⟨h1, h2⟩
  exact h (by rw [h1, h2])

end MedianFilter

namespace SubPixelRefiner

open BlockMatcher (better)

theorem gain_nonneg (m : Bool) (y0 y : ℚ) (h : better m y y0 = false) : 0 ≤ gain m y0 y := by
  cases m <;> simp [better, gain] at h ⊢ <;> linarith

theorem parabolic_den_eq (m : Bool) (ym y0 yp : ℚ) :
    ym - 2 * y0 + yp = (if m then 1 else -1) * (gain m y0 ym + gain m y0 yp) := by
  cases m <;> simp [gain] <;> ring

theorem parabolic_num_eq (m : Bool) (ym y0 yp : ℚ) :
    ym - yp = (if m then 1 else -1) * (gain m y0 ym - gain m y0 yp) := by
  cases m <;> simp [gain]

theorem parabolicOffset_abs_lt (m : Bool) (ym y0 yp o : ℚ)
    (hm : better m ym y0 = false) (hp : better m yp y0 = false)
    (h : parabolicOffset ym y0 yp = some o) : |o| < 1 := by
  unfold parabolicOffset at h
  split_ifs at h with hden
  cases h
  have ha := gain_nonneg m y0 ym hm
  have hb := gain_nonneg m y0 yp hp
  have hsum : 0 < gain m y0 ym + gain m y0 yp := by
    rcases lt_or_eq_of_le (add_nonneg ha hb) with h1 | h1
    · exact h1
    · exfalso
      apply hden
      rw [parabolic_den_eq m, ← h1, mul_zero]
  rw [parabolic_den_eq m ym y0 yp, parabolic_num_eq m ym y0 yp]
  have hsign : |(if m then (1 : ℚ) else -1)| = 1 := by cases m <;> simp
  rw [abs_div, abs_mul, abs_mul, abs_mul, hsign, one_mul, one_mul, abs_two,
    abs_of_pos hsum, div_lt_one (by linarith), abs_lt]
  constructor <;> linarith

theorem triangularOffset_abs_lt (m : Bool) (ym y0 yp o : ℚ)
    (hm : better m ym y0 = false) (hp : better m yp y0 = false)
    (h : triangularOffset m ym y0 yp = some o) : |o| < 1 := by
  unfold triangularOffset at h
  split_ifs at h with hden
  cases h
  have ha := gain_nonneg m y0 ym hm
  have hb := gain_nonneg m y0 yp hp
  have hmax : 0 < max (gain m y0 ym) (gain m y0 yp) :=
    lt_of_le_of_ne (le_trans ha (le_max_left _ _)) (Ne.symm hden)
  have h1 := le_max_left (gain m y0 ym) (gain m y0 yp)
  have h2 := le_max_right (gain m y0 ym) (gain m y0 yp)
  rw [abs_div, abs_mul, abs_two, abs_of_pos hmax, div_lt_one (by linarith), abs_lt]
  constructor <;> linarith

theorem dichotomyStep_close (m : Bool) (profile : ℚ → ℚ) (x s : ℚ) (hs : 0 ≤ s) :
    |dichotomyStep m profile x s - x| ≤ s := by
  unfold dichotomyStep
  split_ifs
  · rw [abs_le]; constructor <;> linarith
  · rw [abs_le]; constructor <;> linarith
  · rw [abs_le]; constructor <;> linarith

theorem dichotomy_abs_lt (m : Bool) (profile : ℚ → ℚ) (minStep c : ℚ) :
    ∀ (n : Nat) (x s : ℚ), 0 < s → |x - c| ≤ 1 - 2 * s →
      |dichotomy m profile minStep n x s - c| < 1 := by
  intro n
  induction n with
  | zero =>
    intro x s hs hx
    unfold dichotomy
    linarith
  | succ n ih =>
    intro x s hs hx
    unfold dichotomy
    split_ifs
    · linarith
    · apply ih _ _ (by linarith)
      have h1 := dichotomyStep_close m profile x s (le_of_lt hs)
      have h2 := abs_sub_le (dichotomyStep m profile x s) x c
      linarith

theorem refineAxis_on_edge (cfg : Config) (sample : Int → Option ℚ) (resample : ℚ → ℚ)
    (d : Int) (h : d = cfg.lo ∨ d = cfg.hi) : refineAxis cfg sample resample d = d := by
  unfold refineAxis
  have : onWindowEdge cfg d = true := by
    unfold onWindowEdge
    rcases h with h | h <;> simp [h]
  rw [if_pos this]

theorem refineAxis_of_stencil (cfg : Config) (sample : Int → Option ℚ) (resample : ℚ → ℚ)
    (d : Int) (ym y0 yp : ℚ) (hm : sample (d - 1) = some ym) (h0 : sample d = some y0)
    (hp : sample (d + 1) = some yp) :
    refineAxis cfg sample resample d =
      if onWindowEdge cfg d then (d : ℚ)
      else
        match cfg.method with
        | RefineMethod.parabolic =>
          match parabolicOffset ym y0 yp with
          | some o => d + o
          | none => d
        | RefineMethod.triangular =>
          match triangularOffset cfg.minimize ym y0 yp with
          | some o => d + o
          | none => d
        | RefineMethod.dichotomy =>
          dichotomy cfg.minimize resample cfg.minStep cfg.maxIterations d (1 / 2) := by
  unfold refineAxis
  rw [hm, h0, hp]

theorem refineAxis_of_missing (cfg : Config) (sample : Int → Option ℚ) (resample : ℚ → ℚ)
    (d : Int) (h : sample (d - 1) = none ∨ sample d = none ∨ sample (d + 1) = none) :
    refineAxis cfg sample resample d = d := by
  unfold refineAxis
  split_ifs
  · rfl
  · rcases h with h | h | h
    · rw [h]
    · rw [h]
      cases sample (d - 1) <;> rfl
    · rw [h]
      cases sample (d - 1) <;> cases sample d <;> rfl

theorem refineAxis_abs_lt (cfg : Config) (sample : Int → Option ℚ) (resample : ℚ → ℚ)
    (d : Int)
    (hwin : ∀ ym y0 yp, sample (d - 1) = some ym → sample d = some y0 →
      sample (d + 1) = some yp →
      better cfg.minimize ym y0 = false ∧ better cfg.minimize yp y0 = false) :
    |refineAxis cfg sample resample d - d| < 1 := by
  cases hm : sample (d - 1) with
  | none => rw [refineAxis_of_missing cfg sample resample d (Or.inl hm)]; simp
  | some ym =>
    cases h0 : sample d with
    | none => rw [refineAxis_of_missing cfg sample resample d (Or.inr (Or.inl h0))]; simp
    | some y0 =>
      cases hp : sample (d + 1) with
      | none =>
        rw [refineAxis_of_missing cfg sample resample d (Or.inr (Or.inr hp))]; simp
      | some yp =>
        obtain ⟨hbm, hbp⟩ := hwin ym y0 yp hm h0 hp
        rw [refineAxis_of_stencil cfg sample resample d ym y0 yp hm h0 hp]
        split_ifs
        · simp
        · cases hmeth : cfg.method with
          | parabolic =>
            simp only
            cases ho : parabolicOffset ym y0 yp with
            | none => simp
            | some o =>
              simp only [add_sub_cancel_left]
              exact parabolicOffset_abs_lt cfg.minimize _ _ _ o hbm hbp ho
          | triangular =>
            simp only
            cases ho : triangularOffset cfg.minimize ym y0 yp with
            | none => simp
            | some o =>
              simp only [add_sub_cancel_left]
              exact triangularOffset_abs_lt cfg.minimize _ _ _ o hbm hbp ho
          | dichotomy =>
            simp only
            apply dichotomy_abs_lt
            · norm_num
            · norm_num

theorem refineAxis_parabolic_degenerate (cfg : Config) (sample : Int → Option ℚ)
    (resample : ℚ → ℚ) (d : Int) (ym y0 yp : ℚ)
    (hm : sample (d - 1) = some ym) (h0 : sample d = some y0) (hp : sample (d + 1) = some yp)
    (hmeth : cfg.method = RefineMethod.parabolic)
    (hden : ym - 2 * y0 + yp = 0) :
    refineAxis cfg sample resample d = d := by
  rw [refineAxis_of_stencil cfg sample resample d ym y0 yp hm h0 hp]
  split_ifs
  · rfl
  · rw [hmeth]
    simp only [parabolicOffset, hden, if_true]

theorem refineAxis_triangular_degenerate (cfg : Config) (sample : Int → Option ℚ)
    (resample : ℚ → ℚ) (d : Int) (ym y0 yp : ℚ)
    (hm : sample (d - 1) = some ym) (h0 : sample d = some y0) (hp : sample (d + 1) = some yp)
    (hmeth : cfg.method = RefineMethod.triangular)
    (hden : max (gain cfg.minimize y0 ym) (gain cfg.minimize y0 yp) = 0) :
    refineAxis cfg sample resample d = d := by
  rw [refineAxis_of_stencil cfg sample resample d ym y0 yp hm h0 hp]
  split_ifs
  · rfl
  · rw [hmeth]
    simp only [triangularOffset, hden, if_true]

theorem mem_of_emittedMetric (profile : List ((Int × Int) × ℚ)) (c : Int × Int) (y : ℚ)
    (h : emittedMetric profile c = some y) : (c, y) ∈ profile := by
  unfold emittedMetric at h
  rw [Option.map_eq_some'] at h
  obtain ⟨e, he, hy⟩ := h
  have hmem := List.mem_of_find?_eq_some he
  have hkey := List.find?_some he
  have hc : e.1 = c := by simpa using hkey
  have : e = (c, y) := Prod.ext hc hy
  rw [← this]
  exact hmem

theorem winner_not_beaten_in_profile (m : BlockMatcher.Config)
    (left right : BlockMatcher.Raster ℚ) (leftMask rightMask : BlockMatcher.Raster Bool)
    (x y : Int) (d : Int × Int) (s : ℚ)
    (hvalid : BlockMatcher.matchPixel m left right leftMask rightMask x y = some (d, s))
    (c : Int × Int) (yc y0 : ℚ)
    (hc : emittedMetric (BlockMatcher.scoredCandidates m left right rightMask x y) c = some yc)
    (h0 : emittedMetric (BlockMatcher.scoredCandidates m left right rightMask x y) d = some y0) :
    better m.minimize yc y0 = false := by
  obtain ⟨_, hopt, pre, post, hl, _⟩ :=
    BlockMatcher.matchPixel_some m left right leftMask rightMask x y (d, s) hvalid
  have hds : ((d, s) : (Int × Int) × ℚ) ∈
      BlockMatcher.scoredCandidates m left right rightMask x y := by
    rw [hl]
    simp
  have hs := ((BlockMatcher.mem_scoredCandidates m left right rightMask x y (d, s)).mp hds).2.2
  have hy0 := ((BlockMatcher.mem_scoredCandidates m left right rightMask x y (d, y0)).mp
    (mem_of_emittedMetric _ d y0 h0)).2.2
  have hsy : y0 = s := by
    simp only at hs hy0
    rw [hs, hy0]
  unfold BlockMatcher.attainsOptimum at hopt
  rw [List.all_eq_true] at hopt
  have := hopt (c, yc) (mem_of_emittedMetric _ c yc hc)
  rw [hsy]
  simpa using this

/-- C8: for every valid integer disparity of the Block Matcher, the Sub-pixel Refiner gives
a value whose offset from the integer disparity is strictly between -1 and 1 on each axis,
whatever the method; when the stencil of an axis is degenerate, the winning candidate lying
on an edge of the search window, a sample of the stencil missing or the denominator of the
fit being zero, the refined value of that axis is the unmodified integer disparity. -/
theorem refiner_offset_within_one_and_degenerate_unmodified (m : BlockMatcher.Config)
    (method : RefineMethod) (maxIterations : Nat) (minStep : ℚ)
    (left right : BlockMatcher.Raster ℚ) (leftMask rightMask : BlockMatcher.Raster Bool)
    (resampleH resampleV : ℚ → ℚ) (x y : Int) (d : Int × Int) (s : ℚ)
    (hvalid : BlockMatcher.matchPixel m left right leftMask rightMask x y = some (d, s)) :
    (∃ r, refinePixel m method maxIterations minStep left right leftMask rightMask
        resampleH resampleV x y = some r ∧
      |r.1 - d.1| < 1 ∧ |r.2 - d.2| < 1 ∧
      ((d.1 = m.hMin ∨ d.1 = m.hMax) → r.1 = d.1) ∧
      ((d.2 = m.vMin ∨ d.2 = m.vMax) → r.2 = d.2)) ∧
    (∀ (cfg : Config) (sample : Int → Option ℚ) (resample : ℚ → ℚ) (k : Int),
      ((k = cfg.lo ∨ k = cfg.hi) → refineAxis cfg sample resample k = k) ∧
      ((sample (k - 1) = none ∨ sample k = none ∨ sample (k + 1) = none) →
        refineAxis cfg sample resample k = k) ∧
      (∀ ym y0 yp, sample (k - 1) = some ym → sample k = some y0 →
        sample (k + 1) = some yp →
        (cfg.method = RefineMethod.parabolic → ym - 2 * y0 + yp = 0 →
          refineAxis cfg sample resample k = k) ∧
        (cfg.method = RefineMethod.triangular →
          max (gain cfg.minimize y0 ym) (gain cfg.minimize y0 yp) = 0 →
          refineAxis cfg sample resample k = k))) := by
  have hH : |refineAxis (axisConfig m method maxIterations minStep true)
      (fun k => emittedMetric (BlockMatcher.scoredCandidates m left right rightMask x y)
        (k, d.2)) resampleH d.1 - d.1| < 1 :=
    refineAxis_abs_lt (axisConfig m method maxIterations minStep true)
      (fun k => emittedMetric (BlockMatcher.scoredCandidates m left right rightMask x y)
        (k, d.2)) resampleH d.1
      (fun ym y0 yp hm h0 hp =>
        ⟨winner_not_beaten_in_profile m left right leftMask rightMask x y d s hvalid
          (d.1 - 1, d.2) ym y0 hm h0,
        winner_not_beaten_in_profile m left right leftMask rightMask x y d s hvalid
          (d.1 + 1, d.2) yp y0 hp h0⟩)
  have hV : |refineAxis (axisConfig m method maxIterations minStep false)
      (fun k => emittedMetric (BlockMatcher.scoredCandidates m left right rightMask x y)
        (d.1, k)) resampleV d.2 - d.2| < 1 :=
    refineAxis_abs_lt (axisConfig m method maxIterations minStep false)
      (fun k => emittedMetric (BlockMatcher.scoredCandidates m left right rightMask x y)
        (d.1, k)) resampleV d.2
      (fun ym y0 yp hm h0 hp =>
        ⟨winner_not_beaten_in_profile m left right leftMask rightMask x y d s hvalid
          (d.1, d.2 - 1) ym y0 hm h0,
        winner_not_beaten_in_profile m left right leftMask rightMask x y d s hvalid
          (d.1, d.2 + 1) yp y0 hp h0⟩)
  have hpix : refinePixel m method maxIterations minStep left right leftMask rightMask
      resampleH resampleV x y =
      some (refineAxis (axisConfig m method maxIterations minStep true)
          (fun k => emittedMetric (BlockMatcher.scoredCandidates m left right rightMask x y)
            (k, d.2)) resampleH d.1,
        refineAxis (axisConfig m method maxIterations minStep false)
          (fun k => emittedMetric (BlockMatcher.scoredCandidates m left right rightMask x y)
            (d.1, k)) resampleV d.2) := by
    unfold refinePixel
    rw [hvalid]
    rfl
  constructor
  · exact ⟨_, hpix, hH, hV,
      fun h => refineAxis_on_edge (axisConfig m method maxIterations minStep true)
        (fun k => emittedMetric (BlockMatcher.scoredCandidates m left right rightMask x y)
          (k, d.2)) resampleH d.1 h,
      fun h => refineAxis_on_edge (axisConfig m method maxIterations minStep false)
        (fun k => emittedMetric (BlockMatcher.scoredCandidates m left right rightMask x y)
          (d.1, k)) resampleV d.2 h⟩
  · intro cfg sample resample k
    refine ⟨refineAxis_on_edge cfg sample resample k,
      refineAxis_of_missing cfg sample resample k, ?_⟩
    intro ym y0 yp hm h0 hp
    exact ⟨refineAxis_parabolic_degenerate cfg sample resample k ym y0 yp hm h0 hp,
      refineAxis_triangular_degenerate cfg sample resample k ym y0 yp hm h0 hp⟩

/-- Witness for C8: at pixel (50,50) of the shift scenario the Block Matcher gives the
valid disparity (-5,0), and the parabolic fit returns it with offsets below 1 on both axes
(the vertical candidate lies on both edges of the bounds [0,0]). -/
theorem refiner_offset_within_one_and_degenerate_unmodified_witness :
    BlockMatcher.matchPixel BlockMatcher.shiftConfig BlockMatcher.shiftLeft
      BlockMatcher.shiftRight BlockMatcher.fullMask BlockMatcher.fullMask 50 50 =
        some ((-5, 0), 0) ∧
    ∃ r, refinePixel BlockMatcher.shiftConfig RefineMethod.parabolic 8 (1 / 100)
        BlockMatcher.shiftLeft BlockMatcher.shiftRight BlockMatcher.fullMask
        BlockMatcher.fullMask (fun _ => 0) (fun _ => 0) 50 50 = some r ∧
      |r.1 - ((-5 : Int) : ℚ)| < 1 ∧ |r.2 - ((0 : Int) : ℚ)| < 1 ∧
      ((((-5, 0) : Int × Int).1 = BlockMatcher.shiftConfig.hMin ∨
        ((-5, 0) : Int × Int).1 = BlockMatcher.shiftConfig.hMax) → r.1 = ((-5 : Int) : ℚ)) ∧
      ((((-5, 0) : Int × Int).2 = BlockMatcher.shiftConfig.vMin ∨
        ((-5, 0) : Int × Int).2 = BlockMatcher.shiftConfig.vMax) → r.2 = ((0 : Int) : ℚ)) :=
  ⟨by decide!,
    (refiner_offset_within_one_and_degenerate_unmodified BlockMatcher.shiftConfig
      RefineMethod.parabolic 8 (1 / 100) BlockMatcher.shiftLeft BlockMatcher.shiftRight
      BlockMatcher.fullMask BlockMatcher.fullMask (fun _ => 0) (fun _ => 0) 50 50 (-5, 0) 0
      (by decide!)).1⟩

end SubPixelRefiner

namespace WarpImageFilter

/-- C11: the warp filter samples the input image at `p_in = p_out + d`, `d` being the
displacement read from the field at the output point `p_out`; for an all-zero displacement
field the mapped position is the output position itself, and every output pixel whose
position lies inside the input image buffer gets the input sampled at that same position. -/
theorem warp_samples_input_at_output_plus_displacement (f : Filter) (input : InputImage)
    (field : ℚ × ℚ → ℚ × ℚ) (idx : Int × Int) :
    mappedPoint field (outputPoint f idx) =
      ((outputPoint f idx).1 + (field (outputPoint f idx)).1,
        (outputPoint f idx).2 + (field (outputPoint f idx)).2) ∧
    (input.IsInsideBuffer (mappedPoint field (outputPoint f idx)) = true →
      warpPixel f input field idx =
        input.Evaluate f.m_Interpolator (mappedPoint field (outputPoint f idx))) ∧
    ((∀ p, field p = (0, 0)) →
      mappedPoint field (outputPoint f idx) = outputPoint f idx ∧
      (input.IsInsideBuffer (outputPoint f idx) = true →
        warpPixel f input field idx = input.Evaluate f.m_Interpolator (outputPoint f idx))) := by
  refine ⟨rfl, ?_, ?_⟩
  · intro h
    unfold warpPixel
    rw [if_pos h]
  · intro hzero
    have hm : mappedPoint field (outputPoint f idx) = outputPoint f idx := by
      unfold mappedPoint
      rw [hzero]
      simp
    refine ⟨hm, ?_⟩
    intro h
    unfold warpPixel
    rw [hm, if_pos h]

/-- Witness for C11: the output pixel (2,1) of a new filter under the zero displacement
field samples the ramp input at the point (2,1), where its value is 21. -/
theorem warp_samples_input_at_output_plus_displacement_witness :
    mappedPoint (fun _ => (0, 0)) (outputPoint New (2, 1)) = outputPoint New (2, 1) ∧
    warpPixel New rampInput (fun _ => (0, 0)) (2, 1) = 21 := by
  have h := (warp_samples_input_at_output_plus_displacement New rampInput (fun _ => (0, 0))
    (2, 1)).2.2 (fun _ => rfl)
  refine ⟨h.1, ?_⟩
  rw [h.2 (by decide!)]
  simp only [rampInput, outputPoint, New]
  norm_num

/-- C12: an output pixel whose mapped position `p_out + d` falls outside the input image
buffer gets exactly the edge padding value of the filter, which is the value handed to
`SetEdgePaddingValue` when one was set and 0 on a filter that was never configured. -/
theorem outside_buffer_gets_edge_padding_value (f : Filter) (input : InputImage)
    (field : ℚ × ℚ → ℚ × ℚ) (idx : Int × Int)
    (hout : input.IsInsideBuffer (mappedPoint field (outputPoint f idx)) = false) :
    warpPixel f input field idx = GetEdgePaddingValue f ∧
    (∀ v : ℚ, GetEdgePaddingValue (SetEdgePaddingValue f v) = v ∧
      warpPixel (SetEdgePaddingValue f v) input field idx = v) ∧
    GetEdgePaddingValue New = 0 ∧
    (input.IsInsideBuffer (mappedPoint field (outputPoint New idx)) = false →
      warpPixel New input field idx = 0) := by
  refine ⟨?_, ?_, rfl, ?_⟩
  · unfold warpPixel
    rw [hout]
    rfl
  · intro v
    refine ⟨rfl, ?_⟩
    have hp : outputPoint (SetEdgePaddingValue f v) idx = outputPoint f idx := rfl
    unfold warpPixel
    rw [hp, hout]
    rfl
  · intro h
    unfold warpPixel
    rw [h]
    rfl

/-- Witness for C12: a displacement of 5 pixels along the first axis maps the output pixel
(2,1) to the point (7,1), outside the ramp input; the pixel gets the padding value -1 that
was set. -/
theorem outside_buffer_gets_edge_padding_value_witness :
    warpPixel (SetEdgePaddingValue New (-1)) rampInput (fun _ => (5, 0)) (2, 1) = -1 ∧
    warpPixel New rampInput (fun _ => (5, 0)) (2, 1) = 0 :=
  ⟨((outside_buffer_gets_edge_padding_value New rampInput (fun _ => (5, 0)) (2, 1)
      (by decide!)).2.1 (-1)).2,
   (outside_buffer_gets_edge_padding_value New rampInput (fun _ => (5, 0)) (2, 1)
      (by decide!)).2.2.2 (by decide!)⟩

end WarpImageFilter

namespace StereoReconstructionExample

open WarpImageFilter (InterpolatorType DefaultInterpolatorType outputPoint)

/-- Counterexample to C13 as stated: the interpolator of a warp filter on which
`SetInterpolator` was not called is the `DefaultInterpolatorType`, the linear interpolation
function, and not a bicubic one of any radius. -/
theorem default_interpolator_bicubic_counterexample :
    DefaultInterpolatorType = InterpolatorType.LinearInterpolateImageFunction ∧
    (∀ r : Nat, DefaultInterpolatorType ≠ InterpolatorType.BCOInterpolateImageFunction r) ∧
    WarpImageFilter.New.m_Interpolator = DefaultInterpolatorType ∧
    ∀ r : Nat, WarpImageFilter.New.m_Interpolator ≠
      InterpolatorType.BCOInterpolateImageFunction r := by
  refine ⟨rfl, ?_, rfl, ?_⟩
  · intro r h
    cases h
  · intro r h
    cases h

/-- C13 (amended): when no interpolator has been set the warp filter samples the source
image with the linear interpolation function, its `DefaultInterpolatorType`; an
interpolator handed to `SetInterpolator` replaces it, and the example hands a bicubic
interpolator of radius 2 to the left and to the right warp filter. -/
theorem default_interpolator_is_linear_example_sets_bicubic (epipolarSize : Nat × Nat)
    (input : WarpImageFilter.InputImage) (field : ℚ × ℚ → ℚ × ℚ) (idx : Int × Int)
    (hin : input.IsInsideBuffer
      (WarpImageFilter.mappedPoint field (outputPoint WarpImageFilter.New idx)) = true) :
    DefaultInterpolatorType = InterpolatorType.LinearInterpolateImageFunction ∧
    WarpImageFilter.New.m_Interpolator = InterpolatorType.LinearInterpolateImageFunction ∧
    WarpImageFilter.warpPixel WarpImageFilter.New input field idx =
      input.Evaluate InterpolatorType.LinearInterpolateImageFunction
        (WarpImageFilter.mappedPoint field (outputPoint WarpImageFilter.New idx)) ∧
    (∀ (f : WarpImageFilter.Filter) (i : InterpolatorType),
      (WarpImageFilter.SetInterpolator f i).m_Interpolator = i) ∧
    (configuredWarpFilter (m_LeftWarpImageFilter epipolarSize)).m_Interpolator =
      InterpolatorType.BCOInterpolateImageFunction 2 ∧
    (configuredWarpFilter (m_RightWarpImageFilter epipolarSize)).m_Interpolator =
      InterpolatorType.BCOInterpolateImageFunction 2 := by
  refine ⟨rfl, rfl, ?_, fun _ _ => rfl, rfl, rfl⟩
  unfold WarpImageFilter.warpPixel
  rw [if_pos hin]
  rfl

/-- Witness for the amended C13: the output pixel (2,1) of a new filter under the zero
displacement field is sampled from the ramp input by the linear interpolation function. -/
theorem default_interpolator_is_linear_example_sets_bicubic_witness :
    WarpImageFilter.warpPixel WarpImageFilter.New WarpImageFilter.rampInput
        (fun _ => (0, 0)) (2, 1) =
      WarpImageFilter.rampInput.Evaluate InterpolatorType.LinearInterpolateImageFunction
        (WarpImageFilter.mappedPoint (fun _ => (0, 0)) (outputPoint WarpImageFilter.New (2, 1))) :=
  (default_interpolator_is_linear_example_sets_bicubic (100, 100) WarpImageFilter.rampInput
    (fun _ => (0, 0)) (2, 1) (by decide!)).2.2.1

/-- C14: whatever the epipolar grid builder returns (lattice, offsets and rectified image
size), the left and the right epipolar image are produced with the same largest possible
region, hence the same output size, with the spacing (1,1) and the origin (0,0), whichever
of the two documented sources gives the region (the size is the rectified image size when
it comes from `SetOutputSize`, the lattice region when it comes from the deformation
field); every pixel index has the same physical position in both images, the point whose
coordinates are the index. -/
theorem left_and_right_epipolar_images_share_extent (regionFromField : Bool)
    (g : EpipolarGrids) :
    (leftEpipolarImage regionFromField g).LargestPossibleRegion =
      (rightEpipolarImage regionFromField g).LargestPossibleRegion ∧
    (leftEpipolarImage regionFromField g).LargestPossibleRegion.size =
      (rightEpipolarImage regionFromField g).LargestPossibleRegion.size ∧
    (leftEpipolarImage regionFromField g).spacing = (1, 1) ∧
    (rightEpipolarImage regionFromField g).spacing = (1, 1) ∧
    (leftEpipolarImage regionFromField g).origin = (0, 0) ∧
    (rightEpipolarImage regionFromField g).origin = (0, 0) ∧
    leftEpipolarImage regionFromField g = rightEpipolarImage regionFromField g ∧
    (leftEpipolarImage false g).LargestPossibleRegion.size = GetRectifiedImageSize g ∧
    (rightEpipolarImage false g).LargestPossibleRegion.size = GetRectifiedImageSize g ∧
    (leftEpipolarImage true g).LargestPossibleRegion = g.lattice ∧
    (rightEpipolarImage true g).LargestPossibleRegion = g.lattice ∧
    (configuredWarpFilter (m_LeftWarpImageFilter (GetRectifiedImageSize g))).m_OutputSize =
      GetRectifiedImageSize g ∧
    (configuredWarpFilter (m_RightWarpImageFilter (GetRectifiedImageSize g))).m_OutputSize =
      GetRectifiedImageSize g ∧
    ∀ idx : Int × Int,
      WarpImageFilter.physicalPoint (leftEpipolarImage regionFromField g) idx =
        WarpImageFilter.physicalPoint (rightEpipolarImage regionFromField g) idx ∧
      WarpImageFilter.physicalPoint (leftEpipolarImage regionFromField g) idx = ((idx.1 : ℚ), (idx.2 : ℚ)) ∧
      outputPoint (configuredWarpFilter (m_LeftWarpImageFilter (GetRectifiedImageSize g))) idx =
        outputPoint (configuredWarpFilter (m_RightWarpImageFilter (GetRectifiedImageSize g)))
          idx := by
  have hsame : leftEpipolarImage regionFromField g = rightEpipolarImage regionFromField g := by
    cases regionFromField <;> rfl
  refine ⟨by rw [hsame], by rw [hsame], rfl, rfl, rfl, rfl, hsame, rfl, rfl, rfl, rfl, rfl, rfl,
    ?_⟩
  intro idx
  refine ⟨by rw [hsame], ?_, rfl⟩
  simp [WarpImageFilter.physicalPoint, leftEpipolarImage,
    WarpImageFilter.GenerateOutputInformation, configuredWarpFilter,
    m_LeftWarpImageFilter, WarpImageFilter.SetEdgePaddingValue,
    WarpImageFilter.SetOutputOrigin, WarpImageFilter.SetOutputSpacing,
    WarpImageFilter.SetOutputSize, WarpImageFilter.SetInterpolator, WarpImageFilter.New]

/-- C16: `main` returns `EXIT_FAILURE` without a single pipeline call and without handing a
parameter to a filter exactly when `argc` differs from 6; with `argc = 6` it makes the
pipeline calls of the source and hands over the parameters. -/
theorem main_fails_early_iff_argc_differs_from_six (argc : Int) (a : Double.Value) :
    (((main argc a).exitCode = EXIT_FAILURE ∧ (main argc a).calls = [] ∧
      (main argc a).parameters = none ∧ (main argc a).usagePrinted = true) ↔ argc ≠ 6) ∧
    ((main argc a).exitCode = EXIT_FAILURE ↔ argc ≠ 6) ∧
    (argc = 6 → (main argc a).exitCode = EXIT_SUCCESS ∧ (main argc a).calls = calls ∧
      (main argc a).calls ≠ [] ∧ (main argc a).parameters = some (parameters a)) := by
  by_cases h : argc = 6
  · subst h
    refine ⟨⟨?_, fun hne => absurd rfl hne⟩, ⟨?_, fun hne => absurd rfl hne⟩, ?_⟩
    · intro hx
      have h01 : EXIT_SUCCESS ≠ EXIT_FAILURE := by decide
      exact absurd hx.1 h01
    · intro hx
      have h01 : EXIT_SUCCESS ≠ EXIT_FAILURE := by decide
      exact absurd hx h01
    · intro _
      have hne : calls ≠ [] := by decide
      exact ⟨rfl, rfl, hne, rfl⟩
  · have hm : main argc a =
        { exitCode := EXIT_FAILURE, usagePrinted := true, parameters := none, calls := [] } := by
      unfold main
      rw [if_pos h]
    rw [hm]
    exact ⟨⟨fun _ => h, fun _ => ⟨rfl, rfl, rfl, rfl⟩⟩, ⟨fun _ => h, fun _ => rfl⟩,
      fun h6 => absurd h6 h⟩

/-- Witness for C16: with three arguments `main` fails at once, with six it runs the 29
pipeline calls. -/
theorem main_fails_early_iff_argc_differs_from_six_witness :
    ((main 3 140).exitCode = EXIT_FAILURE ∧ (main 3 140).calls = [] ∧
      (main 3 140).parameters = none ∧ (main 3 140).usagePrinted = true) ∧
    ((main 6 140).exitCode = EXIT_SUCCESS ∧ (main 6 140).calls = calls ∧
      (main 6 140).calls ≠ [] ∧ (main 6 140).parameters = some (parameters 140)) ∧
    calls.length = 29 :=
  ⟨(main_fails_early_iff_argc_differs_from_six 3 140).1.mpr (by decide),
   (main_fails_early_iff_argc_differs_from_six 6 140).2.2 rfl, by decide⟩

/-- C20: in the pipeline that `main` builds, the mask of the left epipolar image (the
output of the left band-math filter, fed by the left warp filter) is the left mask input of
the block matcher, the mask input of the horizontal and of the vertical median filter and
the disparity mask input of the DEM filter; the mask of the right epipolar image is the
right mask input of the block matcher; the sub-pixel filter takes its inputs from the block
matcher. -/
theorem masks_are_threaded_through_the_pipeline (a : Double.Value) :
    inputOf (main 6 a).calls Obj.m_LBandMathFilter Setter.SetNthInput0 =
      some (Obj.m_LeftWarpImageFilter, Source.GetOutput) ∧
    inputOf (main 6 a).calls Obj.m_RBandMathFilter Setter.SetNthInput0 =
      some (Obj.m_RightWarpImageFilter, Source.GetOutput) ∧
    inputOf (main 6 a).calls Obj.m_NCCBlockMatcher Setter.SetLeftMaskInput =
      some (Obj.m_LBandMathFilter, Source.GetOutput) ∧
    inputOf (main 6 a).calls Obj.m_NCCBlockMatcher Setter.SetRightMaskInput =
      some (Obj.m_RBandMathFilter, Source.GetOutput) ∧
    inputOf (main 6 a).calls Obj.m_NCCSubPixFilter Setter.SetInputsFromBlockMatchingFilter =
      some (Obj.m_NCCBlockMatcher, Source.Filter) ∧
    inputOf (main 6 a).calls Obj.m_HMedianFilter Setter.SetMaskInput =
      some (Obj.m_LBandMathFilter, Source.GetOutput) ∧
    inputOf (main 6 a).calls Obj.m_VMedianFilter Setter.SetMaskInput =
      some (Obj.m_LBandMathFilter, Source.GetOutput) ∧
    inputOf (main 6 a).calls Obj.m_DispToElev Setter.SetDisparityMaskInput =
      some (Obj.m_LBandMathFilter, Source.GetOutput) ∧
    inputOf (main 6 a).calls Obj.m_HMedianFilter Setter.SetInput =
      some (Obj.m_NCCSubPixFilter, Source.GetHorizontalDisparityOutput) ∧
    inputOf (main 6 a).calls Obj.m_VMedianFilter Setter.SetInput =
      some (Obj.m_NCCSubPixFilter, Source.GetVerticalDisparityOutput) ∧
    inputOf (main 6 a).calls Obj.m_DispToElev Setter.SetHorizontalDisparityMapInput =
      some (Obj.m_HMedianFilter, Source.GetOutput) ∧
    inputOf (main 6 a).calls Obj.m_DispToElev Setter.SetVerticalDisparityMapInput =
      some (Obj.m_VMedianFilter, Source.GetOutput) := by
  have hc : (main 6 a).calls = calls := rfl
  rw [hc]
  decide

end StereoReconstructionExample

namespace GlView

theorem count_ne_zero_iff (m : List (String × GlActor)) (key : String) :
    count m key ≠ 0 ↔ key ∈ m.map Prod.fst := by
  unfold count
  by_cases h : m.any (fun e => e.1 == key) = true
  · rw [if_pos h]
    simp only [ne_eq, one_ne_zero, not_false_eq_true, true_iff]
    rw [List.any_eq_true] at h
    obtain ⟨e, he, hk⟩ := h
    rw [List.mem_map]
    exact ⟨e, he, by simpa using hk⟩
  · rw [if_neg h]
    simp only [ne_eq, not_true_eq_false, false_iff]
    intro hmem
    apply h
    rw [List.mem_map] at hmem
    obtain ⟨e, he, hk⟩ := hmem
    rw [List.any_eq_true]
    exact ⟨e, he, by simpa using hk⟩

theorem assign_of_absent (m : List (String × GlActor)) (key : String) (actor : GlActor)
    (h : key ∉ m.map Prod.fst) : assign m key actor = m ++ [(key, actor)] := by
  unfold assign
  have hc : ¬ (m.any (fun e => e.1 == key) = true) := by
    intro hany
    have : count m key ≠ 0 := by
      unfold count
      rw [if_pos hany]
      exact one_ne_zero
    exact h ((count_ne_zero_iff m key).mp this)
  rw [if_neg hc]

theorem find_append_entry (m : List (String × GlActor)) (key k : String) (actor : GlActor) :
    find (m ++ [(key, actor)]) k =
      if k ∈ m.map Prod.fst then find m k else if key = k then some actor else none := by
  unfold find
  induction m with
  | nil =>
    simp only [List.nil_append, List.map_nil, List.not_mem_nil, if_false, List.find?_cons,
      List.find?_nil]
    by_cases hk : key = k
    · simp [hk]
    · have hb : (key == k) = false := by simpa using hk
      simp [hk, hb]
  | cons e m ih =>
    simp only [List.cons_append, List.find?_cons, List.map_cons, List.mem_cons]
    by_cases he : e.1 = k
    · simp [he]
    · have hb : (e.1 == k) = false := by simpa using he
      have hne : ¬ k = e.1 := fun h => he h.symm
      rw [hb]
      simp only [hne, false_or]
      exact ih

theorem find_eq_none_of_absent (m : List (String × GlActor)) (k : String)
    (h : k ∉ m.map Prod.fst) : find m k = none := by
  unfold find
  rw [Option.map_eq_none']
  rw [List.find?_eq_none]
  intro e he hk
  apply h
  rw [List.mem_map]
  exact ⟨e, he, by simpa using hk⟩

/-- C17: `AddActor` throws and leaves the actor map and the rendering order as they were
exactly when the effective key, the given key or the generated key for an empty key, is
already a key of the actor map; otherwise it returns the effective key, stores the actor
under it without touching another entry and appends the key to the rendering order. -/
theorem add_actor_throws_iff_effective_key_present (v : GlView) (actor : GlActor)
    (key : String) :
    (((∃ msg, (AddActor v actor key).1 = KeyResult.exception msg) ∧
        (AddActor v actor key).2.m_Actors = v.m_Actors ∧
        (AddActor v actor key).2.m_RenderingOrder = v.m_RenderingOrder) ↔
      effectiveKey v key ∈ v.m_Actors.map Prod.fst) ∧
    ((∃ msg, (AddActor v actor key).1 = KeyResult.exception msg) ↔
      effectiveKey v key ∈ v.m_Actors.map Prod.fst) ∧
    (effectiveKey v key ∉ v.m_Actors.map Prod.fst →
      (AddActor v actor key).1 = KeyResult.returned (effectiveKey v key) ∧
      find (AddActor v actor key).2.m_Actors (effectiveKey v key) =
        some (SetSettings actor v.m_Settings) ∧
      (∀ k, k ≠ effectiveKey v key →
        find (AddActor v actor key).2.m_Actors k = find v.m_Actors k) ∧
      (AddActor v actor key).2.m_Actors.map Prod.fst =
        v.m_Actors.map Prod.fst ++ [effectiveKey v key] ∧
      (AddActor v actor key).2.m_RenderingOrder =
        v.m_RenderingOrder ++ [effectiveKey v key]) ∧
    (key ≠ "" → effectiveKey v key = key) ∧
    (key = "" → effectiveKey v key = generatedKey v) := by
  have hpresent : effectiveKey v key ∈ v.m_Actors.map Prod.fst →
      AddActor v actor key = (KeyResult.exception ("An actor with key " ++ effectiveKey v key ++
        " already exists, please choose another key"), v) := by
    intro h
    unfold AddActor
    rw [if_pos ((count_ne_zero_iff _ _).mpr h)]
  have habsent : effectiveKey v key ∉ v.m_Actors.map Prod.fst →
      AddActor v actor key = (KeyResult.returned (effectiveKey v key),
        { v with
          m_Actors := v.m_Actors ++ [(effectiveKey v key, SetSettings actor v.m_Settings)],
          m_RenderingOrder := v.m_RenderingOrder ++ [effectiveKey v key] }) := by
    intro h
    unfold AddActor
    rw [if_neg (fun hc => h ((count_ne_zero_iff _ _).mp hc)), assign_of_absent _ _ _ h]
  have hexc : (∃ msg, (AddActor v actor key).1 = KeyResult.exception msg) ↔
      effectiveKey v key ∈ v.m_Actors.map Prod.fst := by
    constructor
    · rintro ⟨msg, hmsg⟩
      by_contra h
      rw [habsent h] at hmsg
      cases hmsg
    · intro h
      rw [hpresent h]
      exact ⟨_, rfl⟩
  refine ⟨?_, hexc, ?_, ?_, ?_⟩
  · constructor
    · intro h
      exact hexc.mp h.1
    · intro h
      refine ⟨hexc.mpr h, ?_, ?_⟩
      · rw [hpresent h]
      · rw [hpresent h]
  · intro h
    rw [habsent h]
    refine ⟨rfl, ?_, ?_, ?_, rfl⟩
    · simp only
      rw [find_append_entry, if_neg h, if_pos rfl]
    · intro k hk
      simp only
      rw [find_append_entry]
      by_cases hmem : k ∈ v.m_Actors.map Prod.fst
      · rw [if_pos hmem]
      · rw [if_neg hmem, if_neg (fun hkk => hk hkk.symm), find_eq_none_of_absent _ _ hmem]
    · simp only [List.map_append, List.map_cons, List.map_nil]
  · intro h
    unfold effectiveKey
    rw [if_neg h]
  · intro h
    unfold effectiveKey
    rw [if_pos h]

/-- Witness for C17: on a new view the call with an empty key returns the generated key
and stores the actor; a second call with that key throws and changes nothing. -/
theorem add_actor_throws_iff_effective_key_present_witness :
    ((AddActor (New exampleSettings) exampleActor "").1 = KeyResult.returned "Actor1\n" ∧
      (AddActor (New exampleSettings) exampleActor "").2.m_RenderingOrder = ["Actor1\n"]) ∧
    ((∃ msg, (AddActor (AddActor (New exampleSettings) exampleActor "").2 exampleActor
        "Actor1\n").1 = KeyResult.exception msg) ∧
      (AddActor (AddActor (New exampleSettings) exampleActor "").2 exampleActor
        "Actor1\n").2.m_Actors = (AddActor (New exampleSettings) exampleActor "").2.m_Actors ∧
      (AddActor (AddActor (New exampleSettings) exampleActor "").2 exampleActor
        "Actor1\n").2.m_RenderingOrder =
        (AddActor (New exampleSettings) exampleActor "").2.m_RenderingOrder) := by
  have h1 := (add_actor_throws_iff_effective_key_present (New exampleSettings) exampleActor
    "").2.2.1 (by decide)
  have h2 := (add_actor_throws_iff_effective_key_present
    (AddActor (New exampleSettings) exampleActor "").2 exampleActor "Actor1\n").1.mpr
    (by decide)
  exact ⟨⟨h1.1, h1.2.2.2.2⟩, h2⟩

theorem filter_ne_erase (order : List String) (key : String) :
    (order.erase key).filter (fun k => decide (k ≠ key)) =
      order.filter (fun k => decide (k ≠ key)) := by
  induction order with
  | nil => rfl
  | cons a l ih =>
    by_cases h : a = key
    · subst h
      simp
    · have hb : (a == key) = false := by simpa using h
      rw [List.erase_cons, hb]
      simp only [Bool.false_eq_true, if_false, List.filter_cons, ih]

/-- C18: `MoveActorToEndOfRenderingOrder` leaves the rendering order as it was when the key
is not in it; otherwise the new order is a permutation of the previous one in which the key
comes first when `front` is true and last when `front` is false, the other keys keeping
their relative order; the actor map is not touched. -/
theorem move_to_end_is_permutation_with_key_at_end (v : GlView) (key : String)
    (front : Bool) :
    (key ∉ v.m_RenderingOrder →
      (MoveActorToEndOfRenderingOrder v key front).m_RenderingOrder = v.m_RenderingOrder) ∧
    (key ∈ v.m_RenderingOrder →
      ((MoveActorToEndOfRenderingOrder v key front).m_RenderingOrder).Perm
        v.m_RenderingOrder ∧
      (front = true →
        (MoveActorToEndOfRenderingOrder v key front).m_RenderingOrder.head? = some key) ∧
      (front = false →
        (MoveActorToEndOfRenderingOrder v key front).m_RenderingOrder.getLast? = some key) ∧
      ((MoveActorToEndOfRenderingOrder v key front).m_RenderingOrder).filter
          (fun k => decide (k ≠ key)) =
        v.m_RenderingOrder.filter (fun k => decide (k ≠ key))) ∧
    (MoveActorToEndOfRenderingOrder v key front).m_Actors = v.m_Actors := by
  refine ⟨?_, ?_, rfl⟩
  · intro h
    simp only [MoveActorToEndOfRenderingOrder, moveToEnd, if_neg h]
  · intro h
    have hperm : (key :: v.m_RenderingOrder.erase key).Perm v.m_RenderingOrder :=
      (List.perm_cons_erase h).symm
    cases front with
    | true =>
      simp only [MoveActorToEndOfRenderingOrder, moveToEnd, if_pos h, if_true]
      refine ⟨hperm, fun _ => rfl, fun hf => absurd hf (by decide), ?_⟩
      rw [List.filter_cons]
      simp only [ne_eq, not_true_eq_false, decide_False, Bool.false_eq_true, if_false]
      exact filter_ne_erase _ _
    | false =>
      simp only [MoveActorToEndOfRenderingOrder, moveToEnd, if_pos h, Bool.false_eq_true,
        if_false]
      refine ⟨?_, fun hf => absurd hf (by decide), fun _ => ?_, ?_⟩
      · exact (List.perm_append_singleton key _).trans hperm
      · simp
      · rw [List.filter_append, filter_ne_erase]
        simp

/-- Witness for C18: in the order a, b, c the key b is moved to the front and to the
back. -/
theorem move_to_end_is_permutation_with_key_at_end_witness :
    (MoveActorToEndOfRenderingOrder ⟨exampleSettings, [], ["a", "b", "c"]⟩ "b"
      true).m_RenderingOrder.head? = some "b" ∧
    (MoveActorToEndOfRenderingOrder ⟨exampleSettings, [], ["a", "b", "c"]⟩ "b"
      false).m_RenderingOrder.getLast? = some "b" ∧
    (MoveActorToEndOfRenderingOrder ⟨exampleSettings, [], ["a", "b", "c"]⟩ "z"
      true).m_RenderingOrder = ["a", "b", "c"] :=
  ⟨((move_to_end_is_permutation_with_key_at_end ⟨exampleSettings, [], ["a", "b", "c"]⟩ "b"
      true).2.1 (by decide)).2.1 rfl,
   ((move_to_end_is_permutation_with_key_at_end ⟨exampleSettings, [], ["a", "b", "c"]⟩ "b"
      false).2.1 (by decide)).2.2.1 rfl,
   (move_to_end_is_permutation_with_key_at_end ⟨exampleSettings, [], ["a", "b", "c"]⟩ "z"
      true).1 (by decide)⟩

end GlView

namespace MetaImageIO

/-- C19: `CanStreamRead` returns false exactly when the meta image holds compressed data,
`CanStreamWrite` returns false exactly when compression is in use on the writer, and
`SupportsDimension` returns true for every dimension. -/
theorem streaming_refused_iff_compressed (io : MetaImageIO) :
    (CanStreamRead io = false ↔ io.m_MetaImage.CompressedData = true) ∧
    (CanStreamWrite io = false ↔ io.GetUseCompression = true) ∧
    (∀ dimension : Nat, SupportsDimension io dimension = true) := by
  refine ⟨?_, ?_, fun _ => rfl⟩
  · unfold CanStreamRead
    cases io.m_MetaImage.CompressedData <;> simp
  · unfold CanStreamWrite
    cases io.GetUseCompression <;> simp

end MetaImageIO

namespace GlView

/-- C24: for the view with the single visible actor `a` and the list of keys that names `a`
twice, `SetRenderingOrder` yields a rendering order of two keys for one actor in which `a`
occurs twice, with `front` set or not, and `LightRender` then renders `a` twice. -/
theorem set_rendering_order_repeats_a_repeated_key :
    ContainsActor oneActor "a" = true ∧
    (find oneActor.m_Actors "a").map (fun actor => actor.visible) = some true ∧
    oneActor.m_Actors.length = 1 ∧
    oneActor.m_RenderingOrder = ["a"] ∧
    (∀ front : Bool,
      (SetRenderingOrder oneActor ["a", "a"] front).m_RenderingOrder = ["a", "a"] ∧
      (SetRenderingOrder oneActor ["a", "a"] front).m_Actors = oneActor.m_Actors ∧
      (SetRenderingOrder oneActor ["a", "a"] front).m_Actors.length <
        (SetRenderingOrder oneActor ["a", "a"] front).m_RenderingOrder.length ∧
      (SetRenderingOrder oneActor ["a", "a"] front).m_RenderingOrder.count "a" = 2 ∧
      LightRender (SetRenderingOrder oneActor ["a", "a"] front) = ["a", "a"] ∧
      (LightRender (SetRenderingOrder oneActor ["a", "a"] front)).count "a" = 2) := by
  decide

/-- C25: `AddActor` with the empty key uses the key `Actor`, then the decimal digits of the
number of actors plus one, then a newline; on a new view, two additions with the empty key
return `Actor1` and `Actor2` (each with its newline), removing `Actor1` succeeds, and the
third addition with the empty key generates `Actor2` again, which is still a key of the map:
it throws and changes nothing. -/
theorem generated_key_collides_after_removal :
    (∀ v : GlView, effectiveKey v "" = generatedKey v ∧
      generatedKey v =
        "Actor" ++ String.mk (Nat.toDigits 10 (v.m_Actors.length + 1)) ++ "\n") ∧
    (AddActor (New exampleSettings) exampleActor "").1 = KeyResult.returned "Actor1\n" ∧
    (AddActor (AddActor (New exampleSettings) exampleActor "").2 exampleActor "").1 =
      KeyResult.returned "Actor2\n" ∧
    (RemoveActor (AddActor (AddActor (New exampleSettings) exampleActor "").2
      exampleActor "").2 "Actor1\n").1 = true ∧
    keys (RemoveActor (AddActor (AddActor (New exampleSettings) exampleActor "").2
      exampleActor "").2 "Actor1\n").2 = ["Actor2\n"] ∧
    generatedKey (RemoveActor (AddActor (AddActor (New exampleSettings) exampleActor "").2
      exampleActor "").2 "Actor1\n").2 = "Actor2\n" ∧
    AddActor (RemoveActor (AddActor (AddActor (New exampleSettings) exampleActor "").2
      exampleActor "").2 "Actor1\n").2 exampleActor "" =
      (KeyResult.exception "An actor with key Actor2\n already exists, please choose another key",
        (RemoveActor (AddActor (AddActor (New exampleSettings) exampleActor "").2
          exampleActor "").2 "Actor1\n").2) := by
  refine ⟨fun v => ⟨rfl, rfl⟩, ?_, ?_, ?_, ?_, ?_, ?_⟩ <;> decide

end GlView

namespace GlView

theorem keys_erase (m : List (String × GlActor)) (key : String) :
    (erase m key).map Prod.fst = (m.map Prod.fst).filter (fun k => !(k == key)) := by
  unfold erase
  induction m with
  | nil => rfl
  | cons e m ih =>
    by_cases he : e.1 = key
    · simp [List.filter_cons, he, ih]
    · have hb : (e.1 == key) = false := by simpa using he
      simp [List.filter_cons, hb, ih]

theorem containsActor_iff (v : GlView) (key : String) :
    ContainsActor v key = true ↔ key ∈ keys v := by
  unfold ContainsActor keys find
  rw [Option.isSome_map', List.find?_isSome]
  constructor
  · rintro ⟨e, he, hk⟩
    rw [List.mem_map]
    exact ⟨e, he, by simpa using hk⟩
  · intro h
    rw [List.mem_map] at h
    obtain ⟨e, he, hk⟩ := h
    exact ⟨e, he, by simpa using hk⟩

theorem swapWithNext_perm (order : List String) (n : Nat) :
    (swapWithNext order n).Perm order := by
  induction order generalizing n with
  | nil => cases n <;> exact List.Perm.refl _
  | cons x rest ih =>
    cases n with
    | zero =>
      cases rest with
      | nil => exact List.Perm.refl _
      | cons y rest => exact List.Perm.swap x y rest
    | succ n =>
      cases rest with
      | nil => exact List.Perm.refl _
      | cons y rest => exact List.Perm.cons x (ih n)

theorem moveToEnd_perm (order : List String) (key : String) (front : Bool) :
    (moveToEnd order key front).Perm order := by
  unfold moveToEnd
  by_cases hk : key ∈ order
  · rw [if_pos hk]
    cases front
    · simp only [Bool.false_eq_true, if_false]
      exact (List.perm_append_singleton key (order.erase key)).trans
        (List.perm_cons_erase hk).symm
    · simp only [if_true]
      exact (List.perm_cons_erase hk).symm
  · rw [if_neg hk]

theorem orderMatchesActors_of_perm (v w : GlView) (h : OrderMatchesActors v)
    (hp : w.m_RenderingOrder.Perm v.m_RenderingOrder) (hk : w.m_Actors = v.m_Actors) :
    OrderMatchesActors w := by
  obtain ⟨hnd, h1, h2⟩ := h
  refine ⟨hp.nodup_iff.mpr hnd, ?_, ?_⟩
  · intro k hkm
    unfold keys
    rw [hk]
    exact h1 k (hp.mem_iff.mp hkm)
  · intro k hkm
    unfold keys at hkm
    rw [hk] at hkm
    exact hp.mem_iff.mpr (h2 k hkm)

/-- C22: when the rendering order of a view has no duplicate key and holds exactly the keys
of the actor map, the same is true of the view after `AddActor` (successful or not),
`RemoveActor`, `ClearActors`, `RotateRenderingOrder`, `MoveActorInRenderingOrder` and
`MoveActorToEndOfRenderingOrder`; it is true of the view made by the constructor. -/
theorem order_matches_actors_is_preserved (v : GlView) (h : OrderMatchesActors v) :
    (∀ actor key, OrderMatchesActors (AddActor v actor key).2) ∧
    (∀ key, OrderMatchesActors (RemoveActor v key).2) ∧
    OrderMatchesActors (ClearActors v) ∧
    (∀ down, OrderMatchesActors (RotateRenderingOrder v down)) ∧
    (∀ key down, OrderMatchesActors (MoveActorInRenderingOrder v key down)) ∧
    (∀ key front, OrderMatchesActors (MoveActorToEndOfRenderingOrder v key front)) ∧
    (∀ settings, OrderMatchesActors (New settings)) := by
  refine ⟨?_, ?_, ?_, ?_, ?_, ?_, ?_⟩
  · intro actor key
    unfold AddActor
    by_cases hc : count v.m_Actors (effectiveKey v key) ≠ 0
    · rw [if_pos hc]
      exact h
    · rw [if_neg hc]
      have habs : effectiveKey v key ∉ v.m_Actors.map Prod.fst :=
        fun hm => hc ((count_ne_zero_iff _ _).mpr hm)
      obtain ⟨hnd, h1, h2⟩ := h
      have hno : effectiveKey v key ∉ v.m_RenderingOrder := fun hm => habs (h1 _ hm)
      refine ⟨?_, ?_, ?_⟩
      · simp only
        rw [List.nodup_append]
        refine ⟨hnd, List.nodup_singleton _, ?_⟩
        intro a ha hb
        rw [List.mem_singleton] at hb
        exact hno (hb ▸ ha)
      · intro k hk
        simp only [keys]
        rw [assign_of_absent _ _ _ habs, List.map_append, List.mem_append]
        simp only at hk
        rw [List.mem_append] at hk
        rcases hk with hk | hk
        · exact Or.inl (h1 k hk)
        · right
          simpa using hk
      · intro k hk
        simp only [keys] at hk
        rw [assign_of_absent _ _ _ habs, List.map_append, List.mem_append] at hk
        simp only
        rw [List.mem_append]
        rcases hk with hk | hk
        · exact Or.inl (h2 k hk)
        · right
          simpa using hk
  · intro key
    unfold RemoveActor
    by_cases hc : count v.m_Actors key = 0
    · rw [if_pos hc]
      exact h
    · rw [if_neg hc]
      obtain ⟨hnd, h1, h2⟩ := h
      refine ⟨hnd.erase key, ?_, ?_⟩
      · intro k hk
        simp only at hk
        simp only [keys]
        rw [keys_erase, List.mem_filter]
        rw [hnd.mem_erase_iff] at hk
        exact ⟨h1 k hk.2, by simpa using hk.1⟩
      · intro k hk
        simp only [keys] at hk
        rw [keys_erase, List.mem_filter] at hk
        simp only
        rw [hnd.mem_erase_iff]
        exact ⟨by simpa using hk.2, h2 k hk.1⟩
  · refine ⟨List.nodup_nil, ?_, ?_⟩ <;> intro k hk <;> cases hk
  · intro down
    unfold RotateRenderingOrder
    by_cases hl : v.m_RenderingOrder.length > 1
    · rw [if_pos hl]
      cases down
      · simp only [Bool.false_eq_true, if_false]
        exact orderMatchesActors_of_perm v _ h (List.rotate_perm _ _) rfl
      · simp only [if_true]
        exact orderMatchesActors_of_perm v _ h
          ((List.reverse_perm _).trans ((List.rotate_perm _ _).trans (List.reverse_perm _)))
          rfl
    · rw [if_neg hl]
      exact h
  · intro key down
    unfold MoveActorInRenderingOrder
    split_ifs
    · exact orderMatchesActors_of_perm v _ h (swapWithNext_perm _ _) rfl
    · exact orderMatchesActors_of_perm v _ h (swapWithNext_perm _ _) rfl
    · exact h
    · exact h
  · intro key front
    exact orderMatchesActors_of_perm v _ h (moveToEnd_perm _ _ _) rfl
  · intro settings
    refine ⟨List.nodup_nil, ?_, ?_⟩ <;> intro k hk <;> cases hk

/-- Witness for C22: the view with the actors `a`, `b` and `c` has the property, and so has
every view reached from it by one of the operations. -/
theorem order_matches_actors_is_preserved_witness :
    OrderMatchesActors threeActors ∧
    ((∀ actor key, OrderMatchesActors (AddActor threeActors actor key).2) ∧
    (∀ key, OrderMatchesActors (RemoveActor threeActors key).2) ∧
    OrderMatchesActors (ClearActors threeActors) ∧
    (∀ down, OrderMatchesActors (RotateRenderingOrder threeActors down)) ∧
    (∀ key down, OrderMatchesActors (MoveActorInRenderingOrder threeActors key down)) ∧
    (∀ key front, OrderMatchesActors (MoveActorToEndOfRenderingOrder threeActors key front)) ∧
    (∀ settings, OrderMatchesActors (New settings))) :=
  ⟨by decide, order_matches_actors_is_preserved threeActors (by decide)⟩

end GlView

namespace GlView

theorem foldl_setRenderingOrderStep (v : GlView) (ks acc thisKeys : List String) :
    ks.foldl (setRenderingOrderStep v) (acc, thisKeys) =
      (acc ++ ks.filter (ContainsActor v), thisKeys.diff (ks.filter (ContainsActor v))) := by
  induction ks generalizing acc thisKeys with
  | nil => simp
  | cons k ks ih =>
    rw [List.foldl_cons]
    by_cases hc : ContainsActor v k = true
    · have hs : setRenderingOrderStep v (acc, thisKeys) k = (acc ++ [k], thisKeys.erase k) := by
        unfold setRenderingOrderStep
        rw [if_pos hc]
      rw [hs, ih, List.filter_cons_of_pos hc, List.diff_cons, List.append_assoc,
        List.singleton_append]
    · have hs : setRenderingOrderStep v (acc, thisKeys) k = (acc, thisKeys) := by
        unfold setRenderingOrderStep
        rw [if_neg hc]
      rw [hs, ih, List.filter_cons_of_neg hc]

/-- C23: in a view whose rendering order has no duplicate key and holds exactly the keys of
the actor map, `SetRenderingOrder` with a duplicate-free list `ks` leaves the actors as they
are and yields a permutation of the previous rendering order: the keys of `ks` that are keys
of actors, in the order of `ks`, followed (`front`) or preceded (not `front`) by the previous
keys that are not in `ks`, in their previous order. -/
theorem set_rendering_order_is_permutation_of_previous_order (v : GlView)
    (h : OrderMatchesActors v) (ks : List String) (hks : ks.Nodup) (front : Bool) :
    (SetRenderingOrder v ks front).m_Actors = v.m_Actors ∧
    (SetRenderingOrder v ks front).m_RenderingOrder.Perm v.m_RenderingOrder ∧
    (SetRenderingOrder v ks front).m_RenderingOrder =
      (if front then
        ks.filter (fun k => decide (k ∈ keys v)) ++
          v.m_RenderingOrder.filter (fun k => decide (k ∉ ks))
      else
        v.m_RenderingOrder.filter (fun k => decide (k ∉ ks)) ++
          ks.filter (fun k => decide (k ∈ keys v))) ∧
    OrderMatchesActors (SetRenderingOrder v ks front) := by
  obtain ⟨hnd, h1, h2⟩ := h
  have hlisted : ks.filter (ContainsActor v) = ks.filter (fun k => decide (k ∈ keys v)) := by
    apply List.filter_congr
    intro k _
    by_cases hk : k ∈ keys v
    · rw [(containsActor_iff v k).mpr hk]
      simp [hk]
    · have : ContainsActor v k = false := by
        rw [← Bool.not_eq_true]
        exact fun hc => hk ((containsActor_iff v k).mp hc)
      rw [this]
      simp [hk]
  have hrest : v.m_RenderingOrder.diff (ks.filter (ContainsActor v)) =
      v.m_RenderingOrder.filter (fun k => decide (k ∉ ks)) := by
    rw [hnd.diff_eq_filter]
    apply List.filter_congr
    intro k hk
    have hkeys : ContainsActor v k = true := (containsActor_iff v k).mpr (h1 k hk)
    by_cases hin : k ∈ ks
    · have : k ∈ ks.filter (ContainsActor v) := List.mem_filter.mpr ⟨hin, hkeys⟩
      simp [hin, this]
    · have : k ∉ ks.filter (ContainsActor v) := fun hm => hin (List.mem_filter.mp hm).1
      simp [hin, this]
  have hperm : (ks.filter (ContainsActor v) ++
      v.m_RenderingOrder.diff (ks.filter (ContainsActor v))).Perm v.m_RenderingOrder := by
    apply List.subperm_append_diff_self_of_count_le
    intro x hx
    have hx2 : x ∈ v.m_RenderingOrder :=
      h2 x ((containsActor_iff v x).mp (List.mem_filter.mp hx).2)
    have hle : List.count x (ks.filter (ContainsActor v)) ≤ 1 :=
      List.nodup_iff_count_le_one.mp (hks.filter _) x
    exact le_trans hle (List.one_le_count_iff.mpr hx2)
  have horder : (SetRenderingOrder v ks front).m_RenderingOrder =
      (if front then
        ks.filter (ContainsActor v) ++ v.m_RenderingOrder.diff (ks.filter (ContainsActor v))
      else
        v.m_RenderingOrder.diff (ks.filter (ContainsActor v)) ++
          ks.filter (ContainsActor v)) := by
    unfold SetRenderingOrder
    simp only [foldl_setRenderingOrderStep, List.nil_append]
  have hp : (SetRenderingOrder v ks front).m_RenderingOrder.Perm v.m_RenderingOrder := by
    rw [horder]
    cases front
    · simp only [Bool.false_eq_true, if_false]
      exact List.perm_append_comm.trans hperm
    · simp only [if_true]
      exact hperm
  refine ⟨rfl, hp, ?_, orderMatchesActors_of_perm v _ ⟨hnd, h1, h2⟩ hp rfl⟩
  rw [horder, hrest, hlisted]

/-- Witness for C23: in the view with the actors `a`, `b` and `c`, the list `c`, `x`, `a`
gives the order `c`, `a`, `b` with `front` set. -/
theorem set_rendering_order_is_permutation_of_previous_order_witness :
    OrderMatchesActors threeActors ∧ ["c", "x", "a"].Nodup ∧
    (SetRenderingOrder threeActors ["c", "x", "a"] true).m_RenderingOrder = ["c", "a", "b"] ∧
    (SetRenderingOrder threeActors ["c", "x", "a"] true).m_RenderingOrder.Perm
      threeActors.m_RenderingOrder :=
  ⟨by decide, by decide, by decide,
    (set_rendering_order_is_permutation_of_previous_order threeActors (by decide)
      ["c", "x", "a"] (by decide) true).2.1⟩

end GlView

namespace GlView.SaveScreenshot

end GlView.SaveScreenshot

namespace GlView

open SaveScreenshot

end GlView

end OTB
